import Mathlib

/-!
Verification development for the cordova-android plugin handler module
(`src/lib/pluginHandlers.js`).

The JavaScript module is shallowly embedded:

* POSIX path arithmetic (`path.join`, `path.resolve`, `path.dirname`,
  `path.basename`, `path.extname`, `path.relative`) is modelled over
  `String`/`List Char`, following the Node.js POSIX implementations.
  The process working directory is modelled as the root `"/"`; all the
  theorems below only ever resolve against absolute roots, which is how
  the module is used.
* The filesystem is a finite association list from canonical absolute
  paths (lists of path segments) to nodes (regular file with content,
  directory, or symbolic link).  `fs.realpathSync` resolves links
  component-wise with a fuel bound (Node fails with ELOOP on cyclic
  links; the model fails by exhausting fuel).
* Each handler of the `handlers` table is a Lean function from the
  directive, plugin, project, options and a filesystem to a pair of an
  optional thrown error and the resulting filesystem.  A `some` error
  models a thrown exception, paired with the filesystem as mutated up to
  the throw.
-/

set_option maxHeartbeats 1000000
set_option maxRecDepth 10000

namespace PluginHandlers

/-! ## POSIX path model -/

/-- Split a character list at `'/'` characters; mirrors
`String.splitOn "/"` (an empty input yields `[[]]`). -/
def splitSegsAux (cur : List Char) : List Char → List (List Char)
  | [] => [cur.reverse]
  | c :: cs => if c = '/' then cur.reverse :: splitSegsAux [] cs else splitSegsAux (c :: cur) cs

/-- The `'/'`-separated segments of a path string. -/
def pathSegs (s : String) : List String := (splitSegsAux [] s.data).map String.mk

/-- Join segments with `'/'` (inverse of splitting, on canonical input). -/
def joinSlash : List String → String
  | [] => ""
  | [s] => s
  | s :: rest => s ++ "/" ++ joinSlash rest

/-- Does the string start with `'/'` (POSIX absolute path)? -/
def strIsAbs (s : String) : Bool :=
  match s.data with
  | '/' :: _ => true
  | _ => false

/-- Does the string end with `'/'`? -/
def strEndsSlash (s : String) : Bool :=
  match s.data.getLast? with
  | some '/' => true
  | _ => false

/-- Character-level string prefix test. -/
def strHasPrefix (s p : String) : Bool := p.data.isPrefixOf s.data

/-- Character-level string suffix test (models JavaScript `String.endsWith`). -/
def strHasSuffix (s p : String) : Bool := p.data.isSuffixOf s.data

/-- Node's `normalizeString` over already-split segments: drops empty and
`"."` segments and resolves `".."`.  With `allowAboveRoot` (used for
relative paths) leading `".."` segments are kept, otherwise (absolute
paths) they are discarded at the root. -/
def normAux (allowAboveRoot : Bool) (acc : List String) : List String → List String
  | [] => acc.reverse
  | s :: rest =>
    if s = "" then normAux allowAboveRoot acc rest
    else if s = "." then normAux allowAboveRoot acc rest
    else if s = ".." then
      match acc with
      | [] =>
        if allowAboveRoot then normAux allowAboveRoot [".."] rest
        else normAux allowAboveRoot [] rest
      | t :: acc2 =>
        if t = ".." then normAux allowAboveRoot (".." :: t :: acc2) rest
        else normAux allowAboveRoot acc2 rest
    else normAux allowAboveRoot (s :: acc) rest

/-- Node `path.posix.normalize`. -/
def pathNormalize (p : String) : String :=
  if p = "" then "." else
  let abs := strIsAbs p
  let trail := strEndsSlash p
  let segs := normAux (!abs) [] (pathSegs p)
  let body := joinSlash segs
  if body = "" then
    (if abs then "/" else if trail then "./" else ".")
  else
    (if abs then "/" ++ body else body) ++ (if trail then "/" else "")

/-- Node `path.posix.join`: non-empty arguments joined with `'/'`, then
normalized; no arguments (or all empty) gives `"."`. -/
def pathJoin (parts : List String) : String :=
  let f := parts.filter (fun s => s ≠ "")
  if f.isEmpty then "." else pathNormalize (joinSlash f)

/-- Canonical segments of a path treated as absolute. -/
def resolvedSegs (s : String) : List String := normAux false [] (pathSegs s)

/-- The canonical absolute path string with the given segments. -/
def absOfSegs (l : List String) : String := "/" ++ joinSlash l

/-- Node `path.posix.resolve(base, p)`; the working directory (used when
neither argument is absolute) is modelled as `"/"`. -/
def pathResolve (base p : String) : String :=
  let joint :=
    if strIsAbs p then p
    else if strIsAbs base then base ++ "/" ++ p
    else "/" ++ base ++ "/" ++ p
  absOfSegs (resolvedSegs joint)

/-- Node `path.posix.dirname`. -/
def pathDirname (p : String) : String :=
  if p = "" then "." else
  let hasRoot := strIsAbs p
  let r := p.data.reverse
  let r1 := r.dropWhile (fun c => c = '/')
  let r2 := r1.dropWhile (fun c => c ≠ '/')
  match r2 with
  | [] => if hasRoot then "/" else "."
  | _ :: pre =>
    if pre = [] then (if hasRoot then "/" else ".")
    else if hasRoot && pre.length == 1 then "//"
    else String.mk pre.reverse

/-- Node `path.posix.basename` (one-argument form). -/
def pathBasename (p : String) : String :=
  let r := p.data.reverse.dropWhile (fun c => c = '/')
  String.mk (r.takeWhile (fun c => c ≠ '/')).reverse

/-- Node `path.posix.extname`: the final `"."`-suffix of the basename,
empty when the only dot is the leading character (hidden files) or the
basename is `".."`. -/
def pathExtname (p : String) : String :=
  let b := pathBasename p
  if b = ".." then "" else
  let r := b.data.reverse
  let pre := r.takeWhile (fun c => c ≠ '.')
  if pre.length = r.length then ""
  else if pre.length + 1 = r.length then ""
  else String.mk ('.' :: pre.reverse)

/-- Node `path.posix.basename(p, ext)`: the basename with a trailing
`ext` stripped, unless the basename is exactly `ext`. -/
def pathBasenameExt (p ext : String) : String :=
  let b := pathBasename p
  if ext ≠ "" && ext.data.isSuffixOf b.data && b ≠ ext then
    String.mk (b.data.take (b.data.length - ext.data.length))
  else b

/-- Drop the common leading segments of two segment lists. -/
def dropCommon : List String → List String → List String × List String
  | a :: as2, b :: bs2 => if a = b then dropCommon as2 bs2 else (a :: as2, b :: bs2)
  | as2, bs2 => (as2, bs2)

/-- Node `path.posix.relative` (both arguments resolved first). -/
def pathRelative (p q : String) : String :=
  let f := resolvedSegs (pathResolve "/" p)
  let t := resolvedSegs (pathResolve "/" q)
  let (f1, t1) := dropCommon f t
  joinSlash (List.replicate f1.length ".." ++ t1)

/-! ## Filesystem model -/

/-- A filesystem node: a regular file with its content, a directory, or a
symbolic link with its (raw) target string. -/
inductive FSNode where
  | file (content : String)
  | dir
  | symlink (target : String)
deriving DecidableEq, Repr

/-- A filesystem: an association list from canonical absolute paths
(segment lists) to nodes.  The root `[]` is an implicit directory and
never appears as a key. -/
structure FS where
  entries : List (List String × FSNode)
deriving DecidableEq, Repr

def fsLookup (fs : FS) (k : List String) : Option FSNode :=
  (fs.entries.find? (fun e => e.1 == k)).map (fun e => e.2)

/-- Node stored at a canonical path; the root is always a directory. -/
def fsGet (fs : FS) (k : List String) : Option FSNode :=
  if k = [] then some FSNode.dir else fsLookup fs k

def fsErase (fs : FS) (k : List String) : FS :=
  ⟨fs.entries.filter (fun e => !(e.1 == k))⟩

def fsInsert (fs : FS) (k : List String) (v : FSNode) : FS :=
  ⟨(k, v) :: (fsErase fs k).entries⟩

/-- Remove the node at `k` together with its whole subtree. -/
def fsEraseTree (fs : FS) (k : List String) : FS :=
  ⟨fs.entries.filter (fun e => !(k.isPrefixOf e.1))⟩

/-- Names of the immediate children of directory `k`. -/
def fsChildren (fs : FS) (k : List String) : List String :=
  fs.entries.filterMap (fun e =>
    match e.1.reverse with
    | [] => none
    | c :: restRev => if restRev.reverse == k then some c else none)

/-- A valid path segment: non-empty, not a dot link, no separator. -/
def validSeg (s : String) : Prop := s ≠ "" ∧ s ≠ "." ∧ s ≠ ".." ∧ ¬ '/' ∈ s.data

instance (s : String) : Decidable (validSeg s) := by
  unfold validSeg; infer_instance

/-- Well-formed filesystem: unique canonical keys, and every non-root
entry hangs off a directory. -/
def wfFS (fs : FS) : Prop :=
  (fs.entries.map (fun e => e.1)).Nodup ∧
  ∀ e ∈ fs.entries, e.1 ≠ [] ∧ (∀ s ∈ e.1, validSeg s) ∧
    (e.1.dropLast = [] ∨ fsLookup fs e.1.dropLast = some FSNode.dir)

def isSymlinkNode : FSNode → Bool
  | FSNode.symlink _ => true
  | _ => false

/-- No symbolic links anywhere in the filesystem. -/
def noSymlinks (fs : FS) : Prop := ∀ e ∈ fs.entries, isSymlinkNode e.2 = false

/-- Component-wise symbolic-link resolution (the core of
`fs.realpathSync`); `done` is the already-resolved prefix, `rest` the
segments still to walk.  Fuel bounds link expansions (Node raises ELOOP
on cycles). -/
def realpathAux (fs : FS) : Nat → List String → List String → Option (List String)
  | 0, _, _ => none
  | _ + 1, done, [] => if (fsGet fs done).isSome then some done else none
  | fuel + 1, done, s :: rest =>
    match fsGet fs (done ++ [s]) with
    | some (FSNode.symlink t) =>
      let tsegs :=
        if strIsAbs t then resolvedSegs t
        else normAux false [] (done ++ pathSegs t)
      realpathAux fs fuel [] (tsegs ++ rest)
    | some _ => realpathAux fs fuel (done ++ [s]) rest
    | none => none

def realpathSegs (fs : FS) (p : String) : Option (List String) :=
  let l := resolvedSegs p
  realpathAux fs ((fs.entries.length + l.length + 1) * (fs.entries.length + 1)) [] l

/-- `fs.realpathSync` (`none` models a thrown ENOENT/ELOOP error). -/
def realpathSync (fs : FS) (p : String) : Option String :=
  (realpathSegs fs p).map absOfSegs

/-- `fs.existsSync` (follows symbolic links, as `stat` does). -/
def existsSync (fs : FS) (p : String) : Bool := (realpathSegs fs p).isSome

/-- Errors observable from the handlers: `CordovaError`s thrown by the
module itself, `TypeError`s from the `path` API on `undefined`
arguments, and errors thrown by `fs` primitives. -/
inductive JSError where
  | cordova (msg : String)
  | typeError (msg : String)
  | fsError (msg : String)
deriving DecidableEq, Repr

deriving instance DecidableEq for Except

def mkdirAux (fs : FS) (done : List String) : List String → Except JSError FS
  | [] => Except.ok fs
  | s :: rest =>
    let k := done ++ [s]
    match fsGet fs k with
    | some FSNode.dir => mkdirAux fs k rest
    | some _ => Except.error (JSError.fsError ("EEXIST: " ++ absOfSegs k))
    | none => mkdirAux (fsInsert fs k FSNode.dir) k rest

/-- `fs.mkdirSync(p, recursive: true)`: creates all missing ancestors,
succeeds if the directory already exists, fails on a non-directory. -/
def mkdirSyncRec (fs : FS) (p : String) : Except JSError FS :=
  mkdirAux fs [] (resolvedSegs p)

/-- `fs.writeFileSync` (creates or overwrites the file). -/
def writeFileSync (fs : FS) (p content : String) : FS :=
  fsInsert fs (resolvedSegs p) (FSNode.file content)

/-- `fs.readFileSync(p, 'utf-8')`. -/
def readFileSync (fs : FS) (p : String) : Except JSError String :=
  match realpathSegs fs p with
  | none => Except.error (JSError.fsError ("ENOENT: " ++ p))
  | some rp =>
    match fsGet fs rp with
    | some (FSNode.file c) => Except.ok c
    | _ => Except.error (JSError.fsError ("EISDIR: " ++ p))

/-- `fs.rmSync(p, recursive: true, force: true)`: removes the node and
its subtree, no-op when absent. -/
def rmSyncRF (fs : FS) (p : String) : FS := fsEraseTree fs (resolvedSegs p)

/-- `fs.readdirSync`. -/
def readdirSync (fs : FS) (p : String) : List String := fsChildren fs (resolvedSegs p)

/-- `fs.rmdirSync`: removes an existing empty directory (removing the
root fails, as in Node). -/
def rmdirSync (fs : FS) (p : String) : Except JSError FS :=
  let k := resolvedSegs p
  if k = [] then Except.error (JSError.fsError "EBUSY: rmdir /")
  else
    match fsGet fs k with
    | some FSNode.dir =>
      if (fsChildren fs k).isEmpty then Except.ok (fsErase fs k)
      else Except.error (JSError.fsError "ENOTEMPTY")
    | some _ => Except.error (JSError.fsError "ENOTDIR")
    | none => Except.error (JSError.fsError "ENOENT")

/-- `fs.statSync(p).isDirectory()` (`none` models stat throwing). -/
def statIsDir (fs : FS) (p : String) : Option Bool :=
  match realpathSegs fs p with
  | none => none
  | some rp => some (fsGet fs rp == some FSNode.dir)

/-- `fs.cpSync(src, dest, recursive: true)`: replaces the subtree at
`dest` by a copy of the subtree at `src`. -/
def cpSyncRec (fs : FS) (src dest : String) : FS :=
  let s := resolvedSegs src
  let d := resolvedSegs dest
  let copied := fs.entries.filterMap (fun e =>
    if s.isPrefixOf e.1 then some (d ++ e.1.drop s.length, e.2) else none)
  ⟨copied ++ (fs.entries.filter (fun e => !(d.isPrefixOf e.1)))⟩

/-- `fs.symlinkSync(target, p)`. -/
def symlinkSync (fs : FS) (target p : String) : FS :=
  fsInsert fs (resolvedSegs p) (FSNode.symlink target)

instance (fs : FS) : Decidable (wfFS fs) := by
  unfold wfFS; infer_instance

instance (fs : FS) : Decidable (noSymlinks fs) := by
  unfold noSymlinks; infer_instance

/-! ## The utility functions of pluginHandlers.js -/

/-- Models the `is-path-inside` npm package on absolute POSIX paths:
`child` is strictly inside `parent` iff `path.relative(parent, child)`
is non-empty and does not lead with `".."`, i.e. iff the resolved parent
segments are a proper prefix of the resolved child segments. -/
def isPathInside (childPath parentPath : String) : Bool :=
  let c := resolvedSegs childPath
  let p := resolvedSegs parentPath
  p.isPrefixOf c && !(c == p)

def generateAttributeError (attrName el id : String) : String :=
  "Required attribute \"" ++ attrName ++ "\" not specified in <" ++ el ++
    "> element from plugin: " ++ id

def notFoundMsg (src : String) : String := "\"" ++ src ++ "\" not found!"

def srcEscapeMsg (src plugin_dir : String) : String :=
  "File \"" ++ src ++ "\" is located outside the plugin directory \"" ++ plugin_dir ++ "\""

def destEscapeMsg (dest src : String) : String :=
  "Destination \"" ++ dest ++ "\" for source file \"" ++ src ++
    "\" is located outside the project"

def alreadyExistsMsg (target_path : String) : String :=
  "\"" ++ target_path ++ "\" already exists!"

/-- `symlinkFileOrDirTree` as a worklist recursion: the pairs still to
mirror, depth-first.  Fuel only bounds the recursion depth of the model;
the theorems below never take the `link` path. -/
def symlinkTreeAux : Nat → FS → List (String × String) → Option JSError × FS
  | 0, fs, _ => (some (JSError.fsError "model: fuel exhausted"), fs)
  | _ + 1, fs, [] => (none, fs)
  | fuel + 1, fs, (src, dest) :: rest =>
    let fs1 := if existsSync fs dest then rmSyncRF fs dest else fs
    match statIsDir fs1 src with
    | none => (some (JSError.fsError ("ENOENT: " ++ src)), fs1)
    | some true =>
      match mkdirSyncRec fs1 (pathDirname dest) with
      | Except.error e => (some e, fs1)
      | Except.ok fs2 =>
        let names := readdirSync fs2 src
        symlinkTreeAux fuel fs2
          ((names.map (fun n => (pathJoin [src, n], pathJoin [dest, n]))) ++ rest)
    | some false =>
      match realpathSegs fs1 (pathDirname dest) with
      | none => (some (JSError.fsError ("ENOENT: " ++ pathDirname dest)), fs1)
      | some rp => (none, symlinkSync fs1 (pathRelative (absOfSegs rp) src) dest)

def symlinkFileOrDirTree (fs : FS) (src dest : String) : Option JSError × FS :=
  symlinkTreeAux (fs.entries.length * 2 + 2) fs [(src, dest)]

/-- `copyFile` from pluginHandlers.js.  The result pairs an optional
thrown error with the filesystem as mutated up to that point. -/
def copyFile (fs : FS) (plugin_dir src0 project_dir dest0 : String) (link : Bool) :
    Option JSError × FS :=
  let src := pathResolve plugin_dir src0
  if existsSync fs src = false then (some (JSError.cordova (notFoundMsg src)), fs)
  else
    match realpathSync fs src, realpathSync fs plugin_dir with
    | some real_path, some real_plugin_path =>
      if isPathInside real_path real_plugin_path = false then
        (some (JSError.cordova (srcEscapeMsg src plugin_dir)), fs)
      else
        let dest := pathResolve project_dir dest0
        if isPathInside dest project_dir = false then
          (some (JSError.cordova (destEscapeMsg dest src)), fs)
        else
          match mkdirSyncRec fs (pathDirname dest) with
          | Except.error e => (some e, fs)
          | Except.ok fs1 =>
            if link then symlinkFileOrDirTree fs1 src dest
            else (none, cpSyncRec fs1 src dest)
    | _, _ => (some (JSError.fsError "ENOENT: realpath"), fs)

/-- `copyNewFile`: same as `copyFile` but throws if the target exists. -/
def copyNewFile (fs : FS) (plugin_dir src project_dir dest : String) (link : Bool) :
    Option JSError × FS :=
  let target_path := pathResolve project_dir dest
  if existsSync fs target_path then
    (some (JSError.cordova (alreadyExistsMsg target_path)), fs)
  else copyFile fs plugin_dir src project_dir dest link

/-- `removeFileF`. -/
def removeFileF (fs : FS) (p : String) : FS := rmSyncRF fs p

/-- The ancestor-pruning while-loop of `removeFileAndParents`.  Each
iteration either stops or moves one directory up, so a fuel of one plus
the starting depth is never exhausted (at the root, `rmdirSync` fails
exactly as Node's `fs.rmdirSync('/')` throws). -/
def pruneLoop : Nat → FS → String → String → Option JSError × FS
  | 0, fs, _, _ => (none, fs)
  | fuel + 1, fs, stopAt, curDir =>
    if curDir = stopAt then (none, fs)
    else if existsSync fs curDir && (readdirSync fs curDir).isEmpty then
      match rmdirSync fs curDir with
      | Except.error e => (some e, fs)
      | Except.ok fs1 => pruneLoop fuel fs1 stopAt (pathResolve curDir "..")
    else (none, fs)

/-- `removeFileAndParents(baseDir, destFile, stopper)`; a missing
`stopper` argument defaults to `'.'`. -/
def removeFileAndParents (fs : FS) (baseDir destFile : String)
    (stopper0 : Option String) : Option JSError × FS :=
  let stopper := stopper0.getD "."
  let file := pathResolve baseDir destFile
  if existsSync fs file = false then (none, fs)
  else
    let fs1 := rmSyncRF fs file
    let stopAt := pathResolve baseDir stopper
    pruneLoop ((resolvedSegs file).length + 1) fs1 stopAt (pathDirname file)

/-- `deleteJava`. -/
def deleteJava (fs : FS) (project_dir destFile : String) : Option JSError × FS :=
  removeFileAndParents fs project_dir destFile (some "src")

/-! ## Destination resolution for source-file directives -/

/-- `new RegExp('^app(\\/|$)').test t`. -/
def appRegTest (t : String) : Bool := strHasPrefix t "app/" || t == "app"

/-- `new RegExp('^libs(\\/|$)').test t`. -/
def libsRegTest (t : String) : Bool := strHasPrefix t "libs/" || t == "libs"

/-- `new RegExp('^src\\/main(\\/|$)').test t`. -/
def srcMainRegTest (t : String) : Bool := strHasPrefix t "src/main/" || t == "src/main"

/-- `t.replace(new RegExp('^src(\\/|$)'), '')`. -/
def srcRegStrip (t : String) : String :=
  if strHasPrefix t "src/" then String.mk (t.data.drop 4)
  else if t = "src" then ""
  else t

/-- `t.replace(new RegExp('^libs(\\/|$)'), '')`. -/
def libsRegStrip (t : String) : String :=
  if strHasPrefix t "libs/" then String.mk (t.data.drop 5)
  else if t = "libs" then ""
  else t

/-- `getInstallDestination` (destination resolution for `source-file`
directives, reconciling the legacy and the `app/` project layouts). -/
def getInstallDestination (src targetDir : String) : String :=
  if appRegTest targetDir then
    pathJoin [targetDir, pathBasename src]
  else if strHasSuffix src ".java" then
    pathJoin ["app/src/main", "java", srcRegStrip targetDir, pathBasename src]
  else if strHasSuffix src ".aidl" then
    pathJoin ["app/src/main", "aidl", srcRegStrip targetDir, pathBasename src]
  else if libsRegTest targetDir then
    (if strHasSuffix src ".so" then
       pathJoin ["app/src/main", "jniLibs", libsRegStrip targetDir, pathBasename src]
     else pathJoin ["app", targetDir, pathBasename src])
  else if srcMainRegTest targetDir then
    pathJoin ["app", targetDir, pathBasename src]
  else
    pathJoin ["app/src/main", targetDir, pathBasename src]

/-! ## Directives, handles and the handler table -/

/-- One install directive; attributes absent from the XML element are
`none` (JavaScript `undefined`). -/
structure Directive where
  src : Option String := none
  targetDir : Option String := none
  target : Option String := none
  name : Option String := none
  parent : Option String := none
  custom : Bool := false
  type : Option String := none

structure PluginHandle where
  id : String
  dir : String

/-- The project handle; `getCustomSubprojectRelativeDir` is delegated to
the surrounding project object and therefore a parameter here.  The
`addSubProject`/`addSystemLibrary`/`addGradleReference` family and their
removers mutate the project object, not the filesystem modelled here,
so they do not appear in the state. -/
structure ProjectHandle where
  projectDir : String
  www : String
  platformWww : String
  getCustomSubprojectRelativeDir : String → String → String

structure Options where
  force : Bool := false
  link : Bool := false
  usePlatformWww : Bool := false

/-- JavaScript truthiness of an optional string attribute (`undefined`
and `''` are falsy). -/
def truthy : Option String → Bool
  | none => false
  | some s => s ≠ ""

/-- `o || d` for an optional string attribute. -/
def orDefault (o : Option String) (d : String) : String :=
  match o with
  | some s => if s = "" then d else s
  | none => d

/-- The `TypeError` Node's `path` functions throw on `undefined`. -/
def pathTypeError : JSError :=
  JSError.typeError "The \"path\" argument must be of type string. Received undefined"

def sourceFileInstall (obj : Directive) (plugin : PluginHandle) (project : ProjectHandle)
    (options : Options) (fs : FS) : Option JSError × FS :=
  if truthy obj.src = false then
    (some (JSError.cordova (generateAttributeError "src" "source-file" plugin.id)), fs)
  else if truthy obj.targetDir = false then
    (some (JSError.cordova (generateAttributeError "target-dir" "source-file" plugin.id)), fs)
  else
    let src := (obj.src).getD ""
    let dest := getInstallDestination src ((obj.targetDir).getD "")
    if options.force then copyFile fs plugin.dir src project.projectDir dest options.link
    else copyNewFile fs plugin.dir src project.projectDir dest options.link

def sourceFileUninstall (obj : Directive) (_plugin : PluginHandle) (project : ProjectHandle)
    (_options : Options) (fs : FS) : Option JSError × FS :=
  match obj.src, obj.targetDir with
  | some src, some targetDir =>
    let dest := getInstallDestination src targetDir
    if strHasSuffix src "java" then deleteJava fs project.projectDir dest
    else (none, removeFileF fs (pathResolve project.projectDir dest))
  | _, _ => (some pathTypeError, fs)

def libFileInstall (obj : Directive) (plugin : PluginHandle) (project : ProjectHandle)
    (options : Options) (fs : FS) : Option JSError × FS :=
  match obj.src with
  | none => (some pathTypeError, fs)
  | some src =>
    let dest := pathJoin ["app/libs", pathBasename src]
    copyFile fs plugin.dir src project.projectDir dest options.link

def libFileUninstall (obj : Directive) (_plugin : PluginHandle) (project : ProjectHandle)
    (_options : Options) (fs : FS) : Option JSError × FS :=
  match obj.src with
  | none => (some pathTypeError, fs)
  | some src =>
    let dest := pathJoin ["app/libs", pathBasename src]
    (none, removeFileF fs (pathResolve project.projectDir dest))

def resourceFileInstall (obj : Directive) (plugin : PluginHandle) (project : ProjectHandle)
    (options : Options) (fs : FS) : Option JSError × FS :=
  match obj.target with
  | none => (some pathTypeError, fs)
  | some target =>
    let dest := pathJoin ["app", "src", "main", target]
    match obj.src with
    | none => (some pathTypeError, fs)
    | some src => copyFile fs plugin.dir src project.projectDir dest options.link

def resourceFileUninstall (obj : Directive) (_plugin : PluginHandle) (project : ProjectHandle)
    (_options : Options) (fs : FS) : Option JSError × FS :=
  match obj.target with
  | none => (some pathTypeError, fs)
  | some target =>
    let dest := pathJoin ["app", "src", "main", target]
    (none, removeFileF fs (pathResolve project.projectDir dest))

def frameworkInstall (obj : Directive) (plugin : PluginHandle) (project : ProjectHandle)
    (options : Options) (fs : FS) : Option JSError × FS :=
  if truthy obj.src = false then
    (some (JSError.cordova (generateAttributeError "src" "framework" plugin.id)), fs)
  else
    let src := (obj.src).getD ""
    if obj.custom then
      let subRelativeDir := project.getCustomSubprojectRelativeDir plugin.id src
      copyNewFile fs plugin.dir src project.projectDir subRelativeDir options.link
    else (none, fs)

def frameworkUninstall (obj : Directive) (plugin : PluginHandle) (project : ProjectHandle)
    (_options : Options) (fs : FS) : Option JSError × FS :=
  if truthy obj.src = false then
    (some (JSError.cordova (generateAttributeError "src" "framework" plugin.id)), fs)
  else
    let src := (obj.src).getD ""
    if obj.custom then
      let subRelativeDir := project.getCustomSubprojectRelativeDir plugin.id src
      let fs1 := removeFileF fs (pathResolve project.projectDir subRelativeDir)
      let subDir := pathResolve project.projectDir subRelativeDir
      let parDir := pathDirname subDir
      if existsSync fs1 parDir && (readdirSync fs1 parDir).isEmpty then
        match rmdirSync fs1 parDir with
        | Except.error e => (some e, fs1)
        | Except.ok fs2 => (none, fs2)
      else (none, fs1)
    else (none, fs)

def assetInstall (obj : Directive) (plugin : PluginHandle) (project : ProjectHandle)
    (options : Options) (fs : FS) : Option JSError × FS :=
  if truthy obj.src = false then
    (some (JSError.cordova (generateAttributeError "src" "asset" plugin.id)), fs)
  else if truthy obj.target = false then
    (some (JSError.cordova (generateAttributeError "target" "asset" plugin.id)), fs)
  else
    let src := (obj.src).getD ""
    let target := (obj.target).getD ""
    match copyFile fs plugin.dir src project.www target false with
    | (some e, fs1) => (some e, fs1)
    | (none, fs1) =>
      if options.usePlatformWww then copyFile fs1 plugin.dir src project.platformWww target false
      else (none, fs1)

def assetUninstall (obj : Directive) (plugin : PluginHandle) (project : ProjectHandle)
    (options : Options) (fs : FS) : Option JSError × FS :=
  let target := if truthy obj.target then obj.target else obj.src
  if truthy target = false then
    (some (JSError.cordova (generateAttributeError "target" "asset" plugin.id)), fs)
  else
    let t := target.getD ""
    match removeFileAndParents fs project.www t none with
    | (some e, fs1) => (some e, fs1)
    | (none, fs1) =>
      if options.usePlatformWww then removeFileAndParents fs1 project.platformWww t none
      else (none, fs1)

/-- Strip one leading byte-order mark, `content.replace` with the
regular expression matching a leading U+FEFF. -/
def stripBOM (s : String) : String :=
  match s.data with
  | '\uFEFF' :: rest => String.mk rest
  | _ => s

def jsModuleInstall (obj : Directive) (plugin : PluginHandle) (project : ProjectHandle)
    (options : Options) (fs : FS) : Option JSError × FS :=
  match obj.src with
  | none => (some pathTypeError, fs)
  | some src =>
    let moduleSource := pathResolve plugin.dir src
    let moduleName := plugin.id ++ "." ++ orDefault obj.name (pathBasenameExt src (pathExtname src))
    match readFileSync fs moduleSource with
    | Except.error e => (some e, fs)
    | Except.ok raw =>
      let content0 := stripBOM raw
      let content1 :=
        if strHasSuffix moduleSource ".json" then "module.exports = " ++ content0 else content0
      let scriptContent :=
        "cordova.define(\"" ++ moduleName ++ "\", function(require, exports, module) \x7b\n" ++
          content1 ++ "\n\x7d);\n"
      let wwwDest := pathResolve (pathResolve (pathResolve project.www "plugins") plugin.id) src
      match mkdirSyncRec fs (pathDirname wwwDest) with
      | Except.error e => (some e, fs)
      | Except.ok fs1 =>
        let fs2 := writeFileSync fs1 wwwDest scriptContent
        if options.usePlatformWww then
          let platformWwwDest :=
            pathResolve (pathResolve (pathResolve project.platformWww "plugins") plugin.id) src
          match mkdirSyncRec fs2 (pathDirname platformWwwDest) with
          | Except.error e => (some e, fs2)
          | Except.ok fs3 => (none, writeFileSync fs3 platformWwwDest scriptContent)
        else (none, fs2)

def jsModuleUninstall (obj : Directive) (plugin : PluginHandle) (project : ProjectHandle)
    (options : Options) (fs : FS) : Option JSError × FS :=
  match obj.src with
  | none => (some pathTypeError, fs)
  | some src =>
    let pluginRelativePath := pathJoin ["plugins", plugin.id, src]
    match removeFileAndParents fs project.www pluginRelativePath none with
    | (some e, fs1) => (some e, fs1)
    | (none, fs1) =>
      if options.usePlatformWww then
        removeFileAndParents fs1 project.platformWww pluginRelativePath none
      else (none, fs1)

def HandlerFn : Type :=
  Directive → PluginHandle → ProjectHandle → Options → FS → Option JSError × FS

/-- `module.exports.getInstaller` (unknown kinds are unsupported). -/
def getInstaller (kind : String) : Option HandlerFn :=
  if kind = "source-file" then some sourceFileInstall
  else if kind = "lib-file" then some libFileInstall
  else if kind = "resource-file" then some resourceFileInstall
  else if kind = "framework" then some frameworkInstall
  else if kind = "asset" then some assetInstall
  else if kind = "js-module" then some jsModuleInstall
  else none

/-- `module.exports.getUninstaller`. -/
def getUninstaller (kind : String) : Option HandlerFn :=
  if kind = "source-file" then some sourceFileUninstall
  else if kind = "lib-file" then some libFileUninstall
  else if kind = "resource-file" then some resourceFileUninstall
  else if kind = "framework" then some frameworkUninstall
  else if kind = "asset" then some assetUninstall
  else if kind = "js-module" then some jsModuleUninstall
  else none

/-! ## Auxiliary notions used by the statements and proofs -/

/-- Normalization of a `".."`-free segment list only filters out empty
and `"."` segments. -/
def filterSeg (l : List String) : List String :=
  l.filter (fun s => !(s == "" || s == "."))

/-- Every key on the way from `done` through `rest` exists (the
behaviour of the realpath walk on a symlink-free filesystem). -/
def chainOk (fs : FS) : List String → List String → Bool
  | done, [] => (fsGet fs done).isSome
  | done, s :: rest => (fsGet fs (done ++ [s])).isSome && chainOk fs (done ++ [s]) rest

/-- All segments of a key are valid. -/
def validKey (l : List String) : Prop := ∀ s ∈ l, validSeg s

instance (l : List String) : Decidable (validKey l) := by
  unfold validKey; infer_instance

/-! ## Concrete fixtures for witnesses and counterexamples -/

def examplePlugin : PluginHandle := ⟨"com.example.plugin", "/plugin"⟩

def exampleProject : ProjectHandle :=
  ⟨"/project", "/www", "/platform_www",
   fun pid src => "app/libs/" ++ pid ++ "/" ++ pathBasename src⟩

/-- A plugin directory containing a symbolic link that lexically lies
inside the plugin but resolves outside of it. -/
def fsSymlinkEscape : FS :=
  ⟨[(["plugin"], FSNode.dir),
    (["plugin", "evil"], FSNode.symlink "/outside/secret"),
    (["outside"], FSNode.dir),
    (["outside", "secret"], FSNode.file "top secret"),
    (["project"], FSNode.dir)]⟩

/-- A project in which the copy destination already exists. -/
def fsDestExists : FS :=
  ⟨[(["plugin"], FSNode.dir),
    (["plugin", "a.txt"], FSNode.file "new"),
    (["project"], FSNode.dir),
    (["project", "d.txt"], FSNode.file "old")]⟩

/-- A project in which the custom-framework subproject destination
already exists. -/
def fsSubprojectExists : FS :=
  ⟨[(["plugin"], FSNode.dir),
    (["plugin", "FrameworkLib"], FSNode.dir),
    (["project"], FSNode.dir),
    (["project", "app"], FSNode.dir),
    (["project", "app", "libs"], FSNode.dir),
    (["project", "app", "libs", "com.example.plugin"], FSNode.dir),
    (["project", "app", "libs", "com.example.plugin", "FrameworkLib"], FSNode.dir)]⟩

def fsLibFile : FS :=
  ⟨[(["plugin"], FSNode.dir),
    (["plugin", "mylib.jar"], FSNode.file "JAR"),
    (["project"], FSNode.dir),
    (["project", "settings.gradle"], FSNode.file "g")]⟩

def fsJavaSource : FS :=
  ⟨[(["plugin"], FSNode.dir),
    (["plugin", "Foo.java"], FSNode.file "class Foo"),
    (["project"], FSNode.dir),
    (["project", "settings.gradle"], FSNode.file "g")]⟩

def fsKtSource : FS :=
  ⟨[(["plugin"], FSNode.dir),
    (["plugin", "Foo.kt"], FSNode.file "k"),
    (["project"], FSNode.dir),
    (["project", "settings.gradle"], FSNode.file "g")]⟩

def fsResource : FS :=
  ⟨[(["plugin"], FSNode.dir),
    (["plugin", "main.xml"], FSNode.file "x"),
    (["project"], FSNode.dir),
    (["project", "settings.gradle"], FSNode.file "g")]⟩

def fsFramework : FS :=
  ⟨[(["plugin"], FSNode.dir),
    (["plugin", "FrameworkLib"], FSNode.dir),
    (["plugin", "FrameworkLib", "build.gradle"], FSNode.file "bg"),
    (["project"], FSNode.dir),
    (["project", "settings.gradle"], FSNode.file "g")]⟩

def fsAsset : FS :=
  ⟨[(["plugin"], FSNode.dir),
    (["plugin", "style.css"], FSNode.file "css"),
    (["www"], FSNode.dir),
    (["www", "index.html"], FSNode.file "h"),
    (["platform_www"], FSNode.dir)]⟩

def fsJsModule : FS :=
  ⟨[(["plugin"], FSNode.dir),
    (["plugin", "module.js"], FSNode.file "var x = 1;"),
    (["www"], FSNode.dir),
    (["www", "index.html"], FSNode.file "h"),
    (["platform_www"], FSNode.dir)]⟩

def fsJsonModule : FS :=
  ⟨[(["plugin"], FSNode.dir),
    (["plugin", "foo.json"], FSNode.file "[1, 2]"),
    (["www"], FSNode.dir)]⟩

def fsAssetOnly : FS :=
  ⟨[(["www"], FSNode.dir),
    (["www", "thing.css"], FSNode.file "c"),
    (["www", "keep.txt"], FSNode.file "k"),
    (["platform_www"], FSNode.dir),
    (["platform_www", "thing.css"], FSNode.file "c")]⟩

def exampleOptionsWww : Options := { usePlatformWww := true }

/-- The spec's pruning example: `a/b/c/file.txt` under `/www`, with a
sibling that keeps `a` non-empty. -/
def fsPrune : FS :=
  ⟨[(["www"], FSNode.dir),
    (["www", "a"], FSNode.dir),
    (["www", "a", "keep.txt"], FSNode.file "k"),
    (["www", "a", "b"], FSNode.dir),
    (["www", "a", "b", "c"], FSNode.dir),
    (["www", "a", "b", "c", "file.txt"], FSNode.file "f")]⟩

/-! ## C1: copyFile rejects symlink-resolved escapes from the plugin root -/

/-- C1.  Whenever the resolved source of `copyFile` exists but its
symlink-resolved real path is not inside the symlink-resolved plugin
root, `copyFile` throws the path-escape `CordovaError` and returns the
filesystem unchanged — regardless of whether the unresolved source path
lexically lies inside the plugin root. -/
theorem copyFile_symlink_escape_rejected
    (fs : FS) (plugin_dir src project_dir dest : String) (link : Bool) (rp rpp : String)
    (hex : existsSync fs (pathResolve plugin_dir src) = true)
    (hrp : realpathSync fs (pathResolve plugin_dir src) = some rp)
    (hrpp : realpathSync fs plugin_dir = some rpp)
    (hout : isPathInside rp rpp = false) :
    copyFile fs plugin_dir src project_dir dest link =
      (some (JSError.cordova (srcEscapeMsg (pathResolve plugin_dir src) plugin_dir)), fs) := by
  simp [copyFile, hex, hrp, hrpp, hout]

/-- Witness for C1: a concrete filesystem where `/plugin/evil` lexically
lies inside `/plugin` but is a symlink to `/outside/secret`. -/
theorem copyFile_symlink_escape_rejected_witness :
    existsSync fsSymlinkEscape (pathResolve "/plugin" "evil") = true ∧
    isPathInside (pathResolve "/plugin" "evil") "/plugin" = true ∧
    copyFile fsSymlinkEscape "/plugin" "evil" "/project" "dest.txt" false =
      (some (JSError.cordova (srcEscapeMsg "/plugin/evil" "/plugin")), fsSymlinkEscape) := by
  refine ⟨by decide, by decide, ?_⟩
  have h := copyFile_symlink_escape_rejected fsSymlinkEscape "/plugin" "evil" "/project"
    "dest.txt" false "/outside/secret" "/plugin" (by decide) (by decide) (by decide) (by decide)
  exact h.trans (by decide)

/-! ## C7: copyNewFile fails without mutation when the destination exists -/

/-- C7.  When the resolved destination already exists, `copyNewFile`
throws the already-exists `CordovaError` and performs no filesystem
mutation (the existence check precedes any copy, directory creation or
path-guard side effect). -/
theorem copyNewFile_exists_no_mutation
    (fs : FS) (plugin_dir src project_dir dest : String) (link : Bool)
    (hex : existsSync fs (pathResolve project_dir dest) = true) :
    copyNewFile fs plugin_dir src project_dir dest link =
      (some (JSError.cordova (alreadyExistsMsg (pathResolve project_dir dest))), fs) := by
  simp [copyNewFile, hex]

/-- Witness for C7. -/
theorem copyNewFile_exists_no_mutation_witness :
    existsSync fsDestExists (pathResolve "/project" "d.txt") = true ∧
    copyNewFile fsDestExists "/plugin" "a.txt" "/project" "d.txt" false =
      (some (JSError.cordova (alreadyExistsMsg "/project/d.txt")), fsDestExists) := by
  refine ⟨by decide, ?_⟩
  have h := copyNewFile_exists_no_mutation fsDestExists "/plugin" "a.txt" "/project"
    "d.txt" false (by decide)
  exact h.trans (by decide)

/-! ## C5: custom framework install when the subproject destination exists -/

/-- Counterexample to C5 as stated: even with `force` requested, a
custom framework install fails with the already-exists error when the
plugin-scoped subproject destination exists — the copy does not proceed
(the handler always uses `copyNewFile`; it never consults
`options.force`). -/
theorem frameworkInstall_force_does_not_overwrite :
    frameworkInstall { src := some "FrameworkLib", custom := true } examplePlugin
        exampleProject { force := true } fsSubprojectExists =
      (some (JSError.cordova
        (alreadyExistsMsg "/project/app/libs/com.example.plugin/FrameworkLib")),
       fsSubprojectExists) := by
  decide

/-- C5 (amended).  A custom framework install fails with the
already-exists error whenever the plugin-scoped subproject destination
already exists, for every option set — including `force` — and the
filesystem is unchanged. -/
theorem frameworkInstall_custom_exists_fails
    (obj : Directive) (plugin : PluginHandle) (project : ProjectHandle) (options : Options)
    (fs : FS)
    (hcustom : obj.custom = true) (hsrc : truthy obj.src = true)
    (hex : existsSync fs (pathResolve project.projectDir
      (project.getCustomSubprojectRelativeDir plugin.id (obj.src.getD ""))) = true) :
    frameworkInstall obj plugin project options fs =
      (some (JSError.cordova (alreadyExistsMsg (pathResolve project.projectDir
        (project.getCustomSubprojectRelativeDir plugin.id (obj.src.getD ""))))), fs) := by
  simp [frameworkInstall, hcustom, hsrc, copyNewFile, hex]

/-- Witness for the amended C5, with `force := true`. -/
theorem frameworkInstall_custom_exists_fails_witness :
    truthy (Directive.src { src := some "FrameworkLib", custom := true }) = true ∧
    frameworkInstall { src := some "FrameworkLib", custom := true } examplePlugin
        exampleProject { force := true } fsSubprojectExists =
      (some (JSError.cordova
        (alreadyExistsMsg "/project/app/libs/com.example.plugin/FrameworkLib")),
       fsSubprojectExists) := by
  refine ⟨by decide, ?_⟩
  have h := frameworkInstall_custom_exists_fails
    { src := some "FrameworkLib", custom := true } examplePlugin exampleProject
    { force := true } fsSubprojectExists (by decide) (by decide) (by decide)
  exact h.trans (by decide)

/-! ## C4: validation of required attributes -/

/-- Counterexample to C4 as stated: a lib-file install with a missing
`src` does not raise a `ConfigurationError`; the undefined value flows
into `path.basename`, which throws a `TypeError`. -/
theorem libFileInstall_missing_src_typeError :
    libFileInstall {} examplePlugin exampleProject {} fsLibFile =
      (some pathTypeError, fsLibFile) ∧
    ∀ msg, (libFileInstall {} examplePlugin exampleProject {} fsLibFile).1 ≠
      some (JSError.cordova msg) := by
  refine ⟨by decide, ?_⟩
  intro msg h
  rw [show (libFileInstall {} examplePlugin exampleProject {} fsLibFile).1 =
    some pathTypeError by decide] at h
  exact JSError.noConfusion (Option.some.inj h)

/-- C4 (amended).  The source-file, framework and asset installers check
their required attributes first and throw a `ConfigurationError`
identifying the attribute, directive kind and plugin id before touching
the filesystem; the lib-file and resource-file installers perform no
such check, and a missing `src` (lib-file) resp. `target` or `src`
(resource-file) instead surfaces as a `TypeError` from the `path` API,
also before any filesystem mutation. -/
theorem install_missing_attribute_errors
    (obj : Directive) (plugin : PluginHandle) (project : ProjectHandle) (options : Options)
    (fs : FS) :
    (truthy obj.src = false →
      sourceFileInstall obj plugin project options fs =
        (some (JSError.cordova (generateAttributeError "src" "source-file" plugin.id)), fs)) ∧
    (truthy obj.src = true → truthy obj.targetDir = false →
      sourceFileInstall obj plugin project options fs =
        (some (JSError.cordova (generateAttributeError "target-dir" "source-file" plugin.id)),
         fs)) ∧
    (truthy obj.src = false →
      frameworkInstall obj plugin project options fs =
        (some (JSError.cordova (generateAttributeError "src" "framework" plugin.id)), fs)) ∧
    (truthy obj.src = false →
      assetInstall obj plugin project options fs =
        (some (JSError.cordova (generateAttributeError "src" "asset" plugin.id)), fs)) ∧
    (truthy obj.src = true → truthy obj.target = false →
      assetInstall obj plugin project options fs =
        (some (JSError.cordova (generateAttributeError "target" "asset" plugin.id)), fs)) ∧
    (obj.src = none →
      libFileInstall obj plugin project options fs = (some pathTypeError, fs)) ∧
    (obj.target = none →
      resourceFileInstall obj plugin project options fs = (some pathTypeError, fs)) := by
  refine ⟨?_, ?_, ?_, ?_, ?_, ?_, ?_⟩
  · intro h; simp [sourceFileInstall, h]
  · intro h1 h2; simp [sourceFileInstall, h1, h2]
  · intro h; simp [frameworkInstall, h]
  · intro h; simp [assetInstall, h]
  · intro h1 h2; simp [assetInstall, h1, h2]
  · intro h; simp [libFileInstall, h]
  · intro h; simp [resourceFileInstall, h]

/-- Witness for the amended C4, applying it to an attribute-free
directive. -/
theorem install_missing_attribute_errors_witness :
    sourceFileInstall {} examplePlugin exampleProject {} fsLibFile =
      (some (JSError.cordova
        (generateAttributeError "src" "source-file" "com.example.plugin")), fsLibFile) ∧
    resourceFileInstall {} examplePlugin exampleProject {} fsLibFile =
      (some pathTypeError, fsLibFile) := by
  have h := install_missing_attribute_errors {} examplePlugin exampleProject {} fsLibFile
  exact ⟨h.1 (by decide), h.2.2.2.2.2.2 (by decide)⟩

/-! ## C8: modern `app/` target directories are used verbatim -/

/-- C8.  For a source-file directive whose `targetDir` starts with
`app/` or equals `app`, the resolver returns `targetDir` joined with
`basename src`, with no dependence on the source extension. -/
theorem getInstallDestination_app_verbatim (src targetDir : String)
    (h : strHasPrefix targetDir "app/" = true ∨ targetDir = "app") :
    getInstallDestination src targetDir = pathJoin [targetDir, pathBasename src] := by
  have happ : appRegTest targetDir = true := by
    unfold appRegTest
    rcases h with h | h
    · simp [h]
    · simp [h]
  simp [getInstallDestination, happ]

/-- Witness for C8 (the `.java` extension does not divert an `app/`
target into the legacy remapping). -/
theorem getInstallDestination_app_verbatim_witness :
    (strHasPrefix "app/res" "app/" = true ∨ "app/res" = "app") ∧
    getInstallDestination "Foo.java" "app/res" = "app/res/Foo.java" := by
  refine ⟨Or.inl (by decide), ?_⟩
  have h := getInstallDestination_app_verbatim "Foo.java" "app/res" (Or.inl (by decide))
  exact h.trans (by decide)

/-! ## C2: install followed by uninstall -/

/-- Counterexample to C2 as stated: a lib-file install followed by the
matching uninstall succeeds but does not restore the filesystem — the
`app` and `app/libs` directories created by install remain, because
lib-file uninstall only removes the single file and prunes nothing. -/
theorem libFile_roundtrip_not_identity :
    (libFileInstall { src := some "mylib.jar" } examplePlugin exampleProject {} fsLibFile).1 =
      none ∧
    (libFileUninstall { src := some "mylib.jar" } examplePlugin exampleProject {}
      (libFileInstall { src := some "mylib.jar" } examplePlugin exampleProject {}
        fsLibFile).2).1 = none ∧
    (libFileUninstall { src := some "mylib.jar" } examplePlugin exampleProject {}
      (libFileInstall { src := some "mylib.jar" } examplePlugin exampleProject {}
        fsLibFile).2).2 ≠ fsLibFile := by
  refine ⟨by decide, by decide, by decide⟩

/-- C2 (amended).  Install followed by uninstall always removes the
installed artifact, but restores the filesystem exactly only for the
directive kinds whose uninstall prunes emptied ancestors: asset and
js-module (from both `www` and `platformWww` when `usePlatformWww` is
configured) and source-file for `.java` sources.  For non-java
source-file, lib-file, resource-file and custom framework directives,
the empty directories created by install remain (framework uninstall
removes at most the immediate parent of the subproject).  Concretely,
on a project whose destination chains are fresh:
source-file `Foo.java` into legacy `src/com/example`, asset
`css/deep/style.css` and js-module `module.js` (both with
`usePlatformWww`) round-trip to exactly the initial filesystem, while
source-file `Foo.kt` into `app/custom/dirs`, lib-file `mylib.jar`,
resource-file `res/layout/main.xml` and custom framework `FrameworkLib`
leave behind exactly the listed directories. -/
theorem install_uninstall_roundtrip :
    (sourceFileUninstall { src := some "Foo.java", targetDir := some "src/com/example" }
      examplePlugin exampleProject {}
      (sourceFileInstall { src := some "Foo.java", targetDir := some "src/com/example" }
        examplePlugin exampleProject {} fsJavaSource).2) = (none, fsJavaSource) ∧
    (assetUninstall { src := some "style.css", target := some "css/deep/style.css" }
      examplePlugin exampleProject exampleOptionsWww
      (assetInstall { src := some "style.css", target := some "css/deep/style.css" }
        examplePlugin exampleProject exampleOptionsWww fsAsset).2) = (none, fsAsset) ∧
    (jsModuleUninstall { src := some "module.js" } examplePlugin exampleProject
      exampleOptionsWww
      (jsModuleInstall { src := some "module.js" } examplePlugin exampleProject
        exampleOptionsWww fsJsModule).2) = (none, fsJsModule) ∧
    (sourceFileUninstall { src := some "Foo.kt", targetDir := some "app/custom/dirs" }
      examplePlugin exampleProject {}
      (sourceFileInstall { src := some "Foo.kt", targetDir := some "app/custom/dirs" }
        examplePlugin exampleProject {} fsKtSource).2) =
      (none, ⟨[(["project", "app", "custom", "dirs"], FSNode.dir),
               (["project", "app", "custom"], FSNode.dir),
               (["project", "app"], FSNode.dir),
               (["plugin"], FSNode.dir),
               (["plugin", "Foo.kt"], FSNode.file "k"),
               (["project"], FSNode.dir),
               (["project", "settings.gradle"], FSNode.file "g")]⟩) ∧
    (libFileUninstall { src := some "mylib.jar" } examplePlugin exampleProject {}
      (libFileInstall { src := some "mylib.jar" } examplePlugin exampleProject {}
        fsLibFile).2) =
      (none, ⟨[(["project", "app", "libs"], FSNode.dir),
               (["project", "app"], FSNode.dir),
               (["plugin"], FSNode.dir),
               (["plugin", "mylib.jar"], FSNode.file "JAR"),
               (["project"], FSNode.dir),
               (["project", "settings.gradle"], FSNode.file "g")]⟩) ∧
    (resourceFileUninstall { src := some "main.xml", target := some "res/layout/main.xml" }
      examplePlugin exampleProject {}
      (resourceFileInstall { src := some "main.xml", target := some "res/layout/main.xml" }
        examplePlugin exampleProject {} fsResource).2) =
      (none, ⟨[(["project", "app", "src", "main", "res", "layout"], FSNode.dir),
               (["project", "app", "src", "main", "res"], FSNode.dir),
               (["project", "app", "src", "main"], FSNode.dir),
               (["project", "app", "src"], FSNode.dir),
               (["project", "app"], FSNode.dir),
               (["plugin"], FSNode.dir),
               (["plugin", "main.xml"], FSNode.file "x"),
               (["project"], FSNode.dir),
               (["project", "settings.gradle"], FSNode.file "g")]⟩) ∧
    (frameworkUninstall { src := some "FrameworkLib", custom := true } examplePlugin
      exampleProject {}
      (frameworkInstall { src := some "FrameworkLib", custom := true } examplePlugin
        exampleProject {} fsFramework).2) =
      (none, ⟨[(["project", "app", "libs"], FSNode.dir),
               (["project", "app"], FSNode.dir),
               (["plugin"], FSNode.dir),
               (["plugin", "FrameworkLib"], FSNode.dir),
               (["plugin", "FrameworkLib", "build.gradle"], FSNode.file "bg"),
               (["project"], FSNode.dir),
               (["project", "settings.gradle"], FSNode.file "g")]⟩) := by
  refine ⟨by decide, by decide, by decide, by decide, by decide, by decide, by decide⟩

end PluginHandlers

namespace PluginHandlers

/-! ### Basic splitting and joining lemmas -/

theorem splitSegsAux_append_slash (a : List Char) :
    ∀ cur b, splitSegsAux cur (a ++ '/' :: b) = splitSegsAux cur a ++ splitSegsAux [] b := by
  induction a with
  | nil =>
    intro cur b
    simp [splitSegsAux]
  | cons c cs ih =>
    intro cur b
    by_cases hc : c = '/'
    · subst hc
      simp [splitSegsAux, ih]
    · simp [splitSegsAux, hc, ih]

theorem pathSegs_append (a b : String) :
    pathSegs (a ++ "/" ++ b) = pathSegs a ++ pathSegs b := by
  unfold pathSegs
  rw [show (a ++ "/" ++ b).data = a.data ++ '/' :: b.data by
        rw [String.data_append, String.data_append, List.append_assoc]; rfl,
      splitSegsAux_append_slash, List.map_append]

theorem splitSegsAux_no_slash (l : List Char) :
    ∀ cur, (∀ c ∈ l, c ≠ '/') → splitSegsAux cur l = [cur.reverse ++ l] := by
  induction l with
  | nil => intro cur _; simp [splitSegsAux]
  | cons c cs ih =>
    intro cur h
    have hc : c ≠ '/' := h c (by simp)
    rw [splitSegsAux, if_neg hc, ih (c :: cur) (fun x hx => h x (by simp [hx]))]
    simp

theorem pathSegs_single (s : String) (h : ¬ '/' ∈ s.data) : pathSegs s = [s] := by
  unfold pathSegs
  rw [splitSegsAux_no_slash s.data [] (fun c hc hq => h (hq ▸ hc))]
  rfl

theorem joinSlash_cons_cons (x z : String) (zs : List String) :
    joinSlash (x :: z :: zs) = x ++ "/" ++ joinSlash (z :: zs) := rfl

theorem joinSlash_append (l1 l2 : List String) (h1 : l1 ≠ []) (h2 : l2 ≠ []) :
    joinSlash (l1 ++ l2) = joinSlash l1 ++ "/" ++ joinSlash l2 := by
  induction l1 with
  | nil => exact absurd rfl h1
  | cons x xs ih =>
    cases xs with
    | nil =>
      cases l2 with
      | nil => exact absurd rfl h2
      | cons y ys =>
        show joinSlash (x :: y :: ys) = joinSlash [x] ++ "/" ++ joinSlash (y :: ys)
        rw [joinSlash_cons_cons]
        rfl
    | cons z zs =>
      have ihz := ih (by simp)
      rw [List.cons_append] at ihz
      show joinSlash (x :: (z :: (zs ++ l2))) = _
      rw [joinSlash_cons_cons, ihz, joinSlash_cons_cons]
      simp [String.append_assoc]

theorem pathSegs_joinSlash (l : List String) (h : l ≠ []) :
    pathSegs (joinSlash l) = (l.map pathSegs).flatten := by
  induction l with
  | nil => exact absurd rfl h
  | cons x xs ih =>
    cases xs with
    | nil => simp [joinSlash]
    | cons y ys =>
      rw [joinSlash_cons_cons, pathSegs_append, ih (by simp)]
      simp

end PluginHandlers

namespace PluginHandlers

/-! ### Normalization lemmas -/

theorem normAux_nil (b : Bool) (acc : List String) : normAux b acc [] = acc.reverse := rfl

theorem normAux_cons (b : Bool) (acc : List String) (s : String) (rest : List String) :
    normAux b acc (s :: rest) =
      if s = "" then normAux b acc rest
      else if s = "." then normAux b acc rest
      else if s = ".." then
        (match acc with
         | [] => if b then normAux b [".."] rest else normAux b [] rest
         | t :: acc2 =>
           if t = ".." then normAux b (".." :: t :: acc2) rest else normAux b acc2 rest)
      else normAux b (s :: acc) rest := rfl

theorem normAux_eq_filter (b : Bool) (l : List String) :
    ∀ acc, (∀ s ∈ l, s ≠ "..") → normAux b acc l = acc.reverse ++ filterSeg l := by
  induction l with
  | nil => intro acc _; simp [normAux_nil, filterSeg]
  | cons s rest ih =>
    intro acc h
    have hs : s ≠ ".." := h s (by simp)
    have hrest : ∀ x ∈ rest, x ≠ ".." := fun x hx => h x (by simp [hx])
    rw [normAux_cons]
    by_cases h0 : s = ""
    · rw [if_pos h0, ih acc hrest]
      simp [filterSeg, h0]
    · rw [if_neg h0]
      by_cases h1 : s = "."
      · rw [if_pos h1, ih acc hrest]
        simp [filterSeg, h1]
      · rw [if_neg h1, if_neg hs, ih (s :: acc) hrest]
        simp [filterSeg, h0, h1]

theorem normAux_append (b : Bool) (xs : List String) :
    ∀ acc ys, normAux b acc (xs ++ ys) = normAux b (normAux b acc xs).reverse ys := by
  induction xs with
  | nil => intro acc ys; simp [normAux_nil, List.nil_append]
  | cons s rest ih =>
    intro acc ys
    by_cases h0 : s = ""
    · subst h0; rw [List.cons_append, normAux_cons, if_pos rfl, ih, normAux_cons, if_pos rfl]
    · by_cases h1 : s = "."
      · subst h1
        rw [List.cons_append, normAux_cons, if_neg h0, if_pos rfl, ih, normAux_cons, if_neg h0, if_pos rfl]
      · by_cases h2 : s = ".."
        · subst h2
          rw [List.cons_append, normAux_cons, if_neg h0, if_neg h1, if_pos rfl]
          rw [normAux_cons, if_neg h0, if_neg h1, if_pos rfl]
          cases acc with
          | nil =>
            cases b with
            | false => simpa using ih [] ys
            | true => simpa using ih [".."] ys
          | cons t acc2 =>
            by_cases ht : t = ".."
            · simp only [if_pos ht]
              exact ih (".." :: t :: acc2) ys
            · simp only [if_neg ht]
              exact ih acc2 ys
        · rw [List.cons_append, normAux_cons, if_neg h0, if_neg h1, if_neg h2, ih,
              normAux_cons, if_neg h0, if_neg h1, if_neg h2]

theorem filterSeg_append (l1 l2 : List String) :
    filterSeg (l1 ++ l2) = filterSeg l1 ++ filterSeg l2 := by
  simp [filterSeg]

/-! ### Prefix transport lemmas -/

theorem strHasPrefix_append (s t p : String) (h : strHasPrefix s p = true) :
    strHasPrefix (s ++ t) p = true := by
  unfold strHasPrefix at h ⊢
  rw [List.isPrefixOf_iff_prefix] at h ⊢
  rw [String.data_append]
  exact h.trans (List.prefix_append s.data t.data)

theorem strHasPrefix_refl (s : String) : strHasPrefix s s = true := by
  unfold strHasPrefix
  rw [List.isPrefixOf_iff_prefix]

end PluginHandlers

namespace PluginHandlers

theorem strDataNeNil (s : String) (h : s ≠ "") : s.data ≠ [] := by
  intro hd
  exact h (String.ext (by rw [hd]))

theorem strIsAbs_iff (s : String) : strIsAbs s = true ↔ s.data.head? = some '/' := by
  unfold strIsAbs
  split
  · next heq => rw [heq]; simp
  · next heq =>
    constructor
    · intro h; exact absurd h (by simp)
    · intro h
      cases hd : s.data with
      | nil => rw [hd] at h; simp at h
      | cons a l =>
        rw [hd] at h
        simp at h
        exact absurd (hd.trans (by rw [h])) (heq l)

theorem joinSlash_head (x : String) (rest : List String) (hx : x.data ≠ []) :
    (joinSlash (x :: rest)).data.head? = x.data.head? := by
  cases rest with
  | nil => rfl
  | cons y ys =>
    rw [joinSlash_cons_cons, String.data_append, String.data_append]
    cases h : x.data with
    | nil => exact absurd h hx
    | cons c cs => simp

theorem filterSeg_flatten_filter (parts : List String) :
    filterSeg (((parts.filter (fun s => s ≠ "")).map pathSegs).flatten) =
      filterSeg ((parts.map pathSegs).flatten) := by
  induction parts with
  | nil => rfl
  | cons p ps ih =>
    by_cases hp : p = ""
    · subst hp
      rw [List.filter_cons_of_neg (by simp)]
      rw [ih]
      rw [List.map_cons, List.flatten_cons, filterSeg_append]
      rw [show pathSegs "" = [""] from rfl]
      simp [filterSeg]
    · rw [List.filter_cons_of_pos (by simp [hp])]
      rw [List.map_cons, List.flatten_cons, filterSeg_append, ih,
          List.map_cons, List.flatten_cons, filterSeg_append]

end PluginHandlers

namespace PluginHandlers

theorem pathNormalize_shape (p : String) (out : List String)
    (hpne : p ≠ "") (habs : strIsAbs p = false)
    (hout : normAux true [] (pathSegs p) = out)
    (hbody : joinSlash out ≠ "") :
    pathNormalize p = joinSlash out ++ (if strEndsSlash p then "/" else "") := by
  unfold pathNormalize
  rw [if_neg hpne]
  simp only [habs, Bool.not_false, hout]
  rw [if_neg hbody]
  rw [if_neg (by simp : ¬false = true)]

theorem pathJoin_app_prefix (p0 : String) (tail0 rest : List String)
    (hp0 : p0 ≠ "") (hp0c : p0.data.head? ≠ some '/')
    (hnodd : ∀ p ∈ p0 :: tail0, ∀ s ∈ pathSegs p, s ≠ "..")
    (hflat : filterSeg (((p0 :: tail0).map pathSegs).flatten) =
      "app" :: "src" :: "main" :: rest) :
    strHasPrefix (pathJoin (p0 :: tail0)) "app/src/main" = true := by
  have hf : (p0 :: tail0).filter (fun s => s ≠ "") = p0 :: tail0.filter (fun s => s ≠ "") :=
    List.filter_cons_of_pos (by simp [hp0])
  have hpj : pathJoin (p0 :: tail0) =
      pathNormalize (joinSlash (p0 :: tail0.filter (fun s => s ≠ ""))) := by
    unfold pathJoin
    rw [hf]
    rfl
  have hp0d : p0.data ≠ [] := strDataNeNil p0 hp0
  have hphead : (joinSlash (p0 :: tail0.filter (fun s => s ≠ ""))).data.head? =
      p0.data.head? := joinSlash_head _ _ hp0d
  have hpne : joinSlash (p0 :: tail0.filter (fun s => s ≠ "")) ≠ "" := by
    intro h
    rw [h] at hphead
    cases hd : p0.data with
    | nil => exact hp0d hd
    | cons a l =>
      rw [hd] at hphead
      simp at hphead
  have habs : strIsAbs (joinSlash (p0 :: tail0.filter (fun s => s ≠ ""))) = false := by
    cases hq : strIsAbs (joinSlash (p0 :: tail0.filter (fun s => s ≠ ""))) with
    | false => rfl
    | true =>
      have h2 := (strIsAbs_iff _).mp hq
      rw [hphead] at h2
      exact absurd h2 hp0c
  have hfil_ne : (p0 :: tail0.filter (fun s => s ≠ "")) ≠ ([] : List String) := by simp
  have hsegs : pathSegs (joinSlash (p0 :: tail0.filter (fun s => s ≠ ""))) =
      ((p0 :: tail0.filter (fun s => s ≠ "")).map pathSegs).flatten :=
    pathSegs_joinSlash _ hfil_ne
  have hnodd2 : ∀ s ∈ pathSegs (joinSlash (p0 :: tail0.filter (fun s => s ≠ ""))),
      s ≠ ".." := by
    rw [hsegs]
    intro s hs
    rw [List.mem_flatten] at hs
    obtain ⟨l, hl, hsl⟩ := hs
    rw [List.mem_map] at hl
    obtain ⟨q, hq, rfl⟩ := hl
    have hq2 : q ∈ p0 :: tail0 := by
      rcases List.mem_cons.mp hq with h | h
      · exact h ▸ List.mem_cons_self _ _
      · exact List.mem_cons_of_mem _ (List.mem_of_mem_filter h)
    exact hnodd q hq2 s hsl
  have hnorm : normAux true []
      (pathSegs (joinSlash (p0 :: tail0.filter (fun s => s ≠ "")))) =
      "app" :: "src" :: "main" :: rest := by
    rw [normAux_eq_filter true _ [] hnodd2]
    rw [List.reverse_nil, List.nil_append, hsegs]
    have h3 := filterSeg_flatten_filter (p0 :: tail0)
    rw [hf] at h3
    rw [h3, hflat]
  have hbody : joinSlash ("app" :: "src" :: "main" :: rest) ≠ "" := by
    intro h
    have hh := joinSlash_head "app" ("src" :: "main" :: rest) (by decide)
    rw [h] at hh
    simp at hh
  rw [hpj, pathNormalize_shape _ ("app" :: "src" :: "main" :: rest) hpne habs hnorm hbody]
  apply strHasPrefix_append
  cases rest with
  | nil => decide
  | cons r rs =>
    rw [show ("app" :: "src" :: "main" :: r :: rs) = ["app", "src", "main"] ++ (r :: rs)
          from rfl,
        joinSlash_append _ _ (by simp) (by simp)]
    apply strHasPrefix_append
    decide

end PluginHandlers

namespace PluginHandlers

theorem pathBasename_no_slash (p : String) : ¬ '/' ∈ (pathBasename p).data := by
  unfold pathBasename
  intro h
  simp only [String.mk] at h
  rw [List.mem_reverse] at h
  have := List.mem_takeWhile_imp h
  simp at this

theorem pathSegs_basename (p : String) : pathSegs (pathBasename p) = [pathBasename p] :=
  pathSegs_single _ (pathBasename_no_slash p)

theorem strHasPrefix_exists (t p : String) (h : strHasPrefix t p = true) :
    ∃ u, t.data = p.data ++ u := by
  unfold strHasPrefix at h
  rw [List.isPrefixOf_iff_prefix] at h
  obtain ⟨u, hu⟩ := h
  exact ⟨u, hu.symm⟩

theorem pathSegs_src_strip (t : String) (h : strHasPrefix t "src/" = true) :
    pathSegs t = "src" :: pathSegs (String.mk (t.data.drop 4)) := by
  obtain ⟨u, hu⟩ := strHasPrefix_exists t "src/" h
  unfold pathSegs
  rw [hu]
  rw [show ("src/".data ++ u) = (['s', 'r', 'c'] ++ '/' :: u) from rfl,
      splitSegsAux_append_slash]
  rfl

theorem pathSegs_libs_strip (t : String) (h : strHasPrefix t "libs/" = true) :
    pathSegs t = "libs" :: pathSegs (String.mk (t.data.drop 5)) := by
  obtain ⟨u, hu⟩ := strHasPrefix_exists t "libs/" h
  unfold pathSegs
  rw [hu]
  rw [show ("libs/".data ++ u) = (['l', 'i', 'b', 's'] ++ '/' :: u) from rfl,
      splitSegsAux_append_slash]
  rfl

theorem pathSegs_srcmain_strip (t : String) (h : strHasPrefix t "src/main/" = true) :
    pathSegs t = "src" :: "main" :: pathSegs (String.mk (t.data.drop 9)) := by
  obtain ⟨u, hu⟩ := strHasPrefix_exists t "src/main/" h
  unfold pathSegs
  rw [hu]
  rw [show ("src/main/".data ++ u) =
        (['s', 'r', 'c'] ++ '/' :: (['m', 'a', 'i', 'n'] ++ '/' :: u)) from rfl,
      splitSegsAux_append_slash, splitSegsAux_append_slash]
  rfl

end PluginHandlers

namespace PluginHandlers

theorem srcRegStrip_no_dd (t : String) (hdd : ∀ s ∈ pathSegs t, s ≠ "..") :
    ∀ s ∈ pathSegs (srcRegStrip t), s ≠ ".." := by
  unfold srcRegStrip
  by_cases h4 : strHasPrefix t "src/" = true
  · rw [if_pos h4]
    intro s hs
    exact hdd s (by rw [pathSegs_src_strip t h4]; exact List.mem_cons_of_mem _ hs)
  · rw [if_neg h4]
    by_cases h5 : t = "src"
    · rw [if_pos h5]
      intro s hs
      rw [show pathSegs "" = [""] from rfl] at hs
      simp at hs
      subst hs
      decide
    · rw [if_neg h5]
      exact hdd

theorem libsRegStrip_no_dd (t : String) (hdd : ∀ s ∈ pathSegs t, s ≠ "..") :
    ∀ s ∈ pathSegs (libsRegStrip t), s ≠ ".." := by
  unfold libsRegStrip
  by_cases h4 : strHasPrefix t "libs/" = true
  · rw [if_pos h4]
    intro s hs
    exact hdd s (by rw [pathSegs_libs_strip t h4]; exact List.mem_cons_of_mem _ hs)
  · rw [if_neg h4]
    by_cases h5 : t = "libs"
    · rw [if_pos h5]
      intro s hs
      rw [show pathSegs "" = [""] from rfl] at hs
      simp at hs
      subst hs
      decide
    · rw [if_neg h5]
      exact hdd

theorem pathJoin_asm4 (mid tq b : String)
    (hmid : ∀ s ∈ pathSegs mid, s ≠ "..")
    (ht : ∀ s ∈ pathSegs tq, s ≠ "..")
    (hb : ∀ s ∈ pathSegs b, s ≠ "..") :
    strHasPrefix (pathJoin ["app/src/main", mid, tq, b]) "app/src/main" = true := by
  refine pathJoin_app_prefix "app/src/main" [mid, tq, b]
    (filterSeg (pathSegs mid) ++ (filterSeg (pathSegs tq) ++ filterSeg (pathSegs b)))
    (by decide) (by decide) ?_ ?_
  · intro p hp s hs
    simp only [List.mem_cons, List.not_mem_nil, or_false] at hp
    rcases hp with rfl | rfl | rfl | rfl
    · rw [show pathSegs "app/src/main" = ["app", "src", "main"] from rfl] at hs
      simp at hs
      rcases hs with rfl | rfl | rfl <;> decide
    · exact hmid s hs
    · exact ht s hs
    · exact hb s hs
  · rw [List.map_cons, List.map_cons, List.map_cons, List.map_cons, List.map_nil,
        List.flatten_cons, List.flatten_cons, List.flatten_cons, List.flatten_cons,
        List.flatten_nil, List.append_nil, filterSeg_append, filterSeg_append,
        filterSeg_append]
    rfl

theorem pathJoin_asm3 (tq b : String)
    (ht : ∀ s ∈ pathSegs tq, s ≠ "..")
    (hb : ∀ s ∈ pathSegs b, s ≠ "..") :
    strHasPrefix (pathJoin ["app/src/main", tq, b]) "app/src/main" = true := by
  refine pathJoin_app_prefix "app/src/main" [tq, b]
    (filterSeg (pathSegs tq) ++ filterSeg (pathSegs b))
    (by decide) (by decide) ?_ ?_
  · intro p hp s hs
    simp only [List.mem_cons, List.not_mem_nil, or_false] at hp
    rcases hp with rfl | rfl | rfl
    · rw [show pathSegs "app/src/main" = ["app", "src", "main"] from rfl] at hs
      simp at hs
      rcases hs with rfl | rfl | rfl <;> decide
    · exact ht s hs
    · exact hb s hs
  · rw [List.map_cons, List.map_cons, List.map_cons, List.map_nil,
        List.flatten_cons, List.flatten_cons, List.flatten_cons,
        List.flatten_nil, List.append_nil, filterSeg_append, filterSeg_append]
    rfl

theorem pathJoin_app3_srcmain (t b : String) (X : List String)
    (hts : pathSegs t = "src" :: "main" :: X)
    (hX : ∀ s ∈ X, s ≠ "..")
    (hb : ∀ s ∈ pathSegs b, s ≠ "..") :
    strHasPrefix (pathJoin ["app", t, b]) "app/src/main" = true := by
  refine pathJoin_app_prefix "app" [t, b]
    (filterSeg X ++ filterSeg (pathSegs b))
    (by decide) (by decide) ?_ ?_
  · intro p hp s hs
    simp only [List.mem_cons, List.not_mem_nil, or_false] at hp
    rcases hp with rfl | rfl | rfl
    · rw [show pathSegs "app" = ["app"] from rfl] at hs
      simp at hs
      subst hs
      decide
    · rw [hts] at hs
      simp only [List.mem_cons] at hs
      rcases hs with rfl | rfl | hs
      · decide
      · decide
      · exact hX s hs
    · exact hb s hs
  · rw [List.map_cons, List.map_cons, List.map_cons, List.map_nil,
        List.flatten_cons, List.flatten_cons, List.flatten_cons,
        List.flatten_nil, List.append_nil, filterSeg_append, filterSeg_append, hts]
    rfl

end PluginHandlers

namespace PluginHandlers

/-- C3 (amended).  For a source-file directive with a legacy
`targetDir` (not starting with `app/` and not equal to `app`), the
resolved destination begins with `app/src/main`, provided neither
`targetDir` nor the basename of `src` contains a `..` segment, and
excluding the one legacy branch that maps elsewhere: a `targetDir`
matching `libs` for a source that is not a `.java`, `.aidl` or `.so`
file (which resolves under `app/<targetDir>` instead). -/
theorem getInstallDestination_legacy_prefix (src targetDir : String)
    (hlegacy : appRegTest targetDir = false)
    (hdd : ∀ s ∈ pathSegs targetDir, s ≠ "..")
    (hb : pathBasename src ≠ "..")
    (hlibs : ¬ (libsRegTest targetDir = true ∧ strHasSuffix src ".java" = false ∧
      strHasSuffix src ".aidl" = false ∧ strHasSuffix src ".so" = false)) :
    strHasPrefix (getInstallDestination src targetDir) "app/src/main" = true := by
  have hbm : ∀ s ∈ pathSegs (pathBasename src), s ≠ ".." := by
    rw [pathSegs_basename]
    intro s hs
    simp at hs
    subst hs
    exact hb
  unfold getInstallDestination
  simp only [hlegacy, Bool.false_eq_true, if_false]
  by_cases hj : strHasSuffix src ".java" = true
  · rw [if_pos hj]
    exact pathJoin_asm4 "java" (srcRegStrip targetDir) (pathBasename src)
      (by intro s hs; rw [show pathSegs "java" = ["java"] from rfl] at hs; simp at hs
          subst hs; decide)
      (srcRegStrip_no_dd targetDir hdd) hbm
  · rw [if_neg hj]
    by_cases ha : strHasSuffix src ".aidl" = true
    · rw [if_pos ha]
      exact pathJoin_asm4 "aidl" (srcRegStrip targetDir) (pathBasename src)
        (by intro s hs; rw [show pathSegs "aidl" = ["aidl"] from rfl] at hs; simp at hs
            subst hs; decide)
        (srcRegStrip_no_dd targetDir hdd) hbm
    · rw [if_neg ha]
      by_cases hl : libsRegTest targetDir = true
      · rw [if_pos hl]
        by_cases hso : strHasSuffix src ".so" = true
        · rw [if_pos hso]
          exact pathJoin_asm4 "jniLibs" (libsRegStrip targetDir) (pathBasename src)
            (by intro s hs; rw [show pathSegs "jniLibs" = ["jniLibs"] from rfl] at hs
                simp at hs; subst hs; decide)
            (libsRegStrip_no_dd targetDir hdd) hbm
        · exfalso
          apply hlibs
          refine ⟨hl, ?_, ?_, ?_⟩
          · cases hx : strHasSuffix src ".java"
            · rfl
            · exact absurd hx hj
          · cases hx : strHasSuffix src ".aidl"
            · rfl
            · exact absurd hx ha
          · cases hx : strHasSuffix src ".so"
            · rfl
            · exact absurd hx hso
      · rw [if_neg hl]
        by_cases hm : srcMainRegTest targetDir = true
        · rw [if_pos hm]
          have hm2 : strHasPrefix targetDir "src/main/" = true ∨ targetDir = "src/main" := by
            unfold srcMainRegTest at hm
            rcases Bool.or_eq_true_iff.mp hm with h | h
            · exact Or.inl h
            · exact Or.inr (eq_of_beq h)
          rcases hm2 with hpre | heq
          · have hts := pathSegs_srcmain_strip targetDir hpre
            refine pathJoin_app3_srcmain targetDir (pathBasename src)
              (pathSegs (String.mk (targetDir.data.drop 9))) hts ?_ hbm
            intro s hs
            exact hdd s (by rw [hts]; exact List.mem_cons_of_mem _ (List.mem_cons_of_mem _ hs))
          · subst heq
            exact pathJoin_app3_srcmain "src/main" (pathBasename src) [] rfl
              (by intro s hs; simp at hs) hbm
        · rw [if_neg hm]
          exact pathJoin_asm3 targetDir (pathBasename src) hdd hbm

/-- Counterexample to C3 as stated: `targetDir = "libs/armeabi"` is
legacy (does not start with `app/`), yet for a non-`.so` source the
resolver returns `app/libs/armeabi/foo.jar`, which does not begin with
`app/src/main`. -/
theorem getInstallDestination_libs_branch_counterexample :
    appRegTest "libs/armeabi" = false ∧
    getInstallDestination "foo.jar" "libs/armeabi" = "app/libs/armeabi/foo.jar" ∧
    strHasPrefix (getInstallDestination "foo.jar" "libs/armeabi") "app/src/main" = false := by
  refine ⟨by decide, by decide, by decide⟩

/-- Witness for the amended C3 (also checks the spec scenario for
`Foo.java` in legacy `src/com/example`). -/
theorem getInstallDestination_legacy_prefix_witness :
    appRegTest "src/com/example" = false ∧
    strHasPrefix (getInstallDestination "Foo.java" "src/com/example") "app/src/main" = true ∧
    getInstallDestination "Foo.java" "src/com/example" =
      "app/src/main/java/com/example/Foo.java" := by
  refine ⟨by decide, ?_, by decide⟩
  exact getInstallDestination_legacy_prefix "Foo.java" "src/com/example" (by decide)
    (by decide) (by decide) (by decide)

end PluginHandlers

namespace PluginHandlers

theorem normAux_push_valid (l : List String) (s : String) (hs : validSeg s) :
    normAux false [] (l ++ [s]) = normAux false [] l ++ [s] := by
  obtain ⟨h1, h2, h3, _⟩ := hs
  rw [normAux_append, normAux_cons, if_neg h1, if_neg h2, if_neg h3, normAux_nil,
      List.reverse_cons, List.reverse_reverse]

theorem strIsAbs_false_of_valid (s : String) (hs : validSeg s) : strIsAbs s = false := by
  cases hq : strIsAbs s with
  | false => rfl
  | true =>
    have h2 := (strIsAbs_iff s).mp hq
    exact absurd (List.mem_of_mem_head? h2) hs.2.2.2

theorem pathResolve_push_valid (base s : String) (habs : strIsAbs base = true)
    (hs : validSeg s) :
    pathResolve base s = absOfSegs (resolvedSegs base ++ [s]) := by
  unfold pathResolve
  rw [strIsAbs_false_of_valid s hs, habs]
  simp only [Bool.false_eq_true, if_false, if_true]
  unfold resolvedSegs
  rw [pathSegs_append, pathSegs_single s hs.2.2.2, normAux_push_valid _ s hs]

theorem strHasSuffix_append_left (x s p : String) (h : strHasSuffix s p = true) :
    strHasSuffix (x ++ s) p = true := by
  unfold strHasSuffix at h ⊢
  rw [List.isSuffixOf_iff_suffix] at h ⊢
  rw [String.data_append]
  exact h.trans (List.suffix_append x.data s.data)

theorem absOfSegs_append_last (l : List String) (s : String) :
    ∃ x, absOfSegs (l ++ [s]) = x ++ s := by
  cases l with
  | nil => exact ⟨"/", rfl⟩
  | cons a l2 =>
    refine ⟨"/" ++ joinSlash (a :: l2) ++ "/", ?_⟩
    unfold absOfSegs
    rw [joinSlash_append (a :: l2) [s] (by simp) (by simp)]
    rw [show joinSlash [s] = s from rfl]
    simp [String.append_assoc]

theorem strIsAbs_pathResolve (base p : String) : strIsAbs (pathResolve base p) = true := by
  unfold pathResolve absOfSegs
  rfl

end PluginHandlers

namespace PluginHandlers

/-- C9.  A js-module install for a `.json` source writes, at
`resolve(www, 'plugins', pluginId, src)`, a file whose content is the
BOM-stripped source content prefixed with `module.exports = `, wrapped
in the `cordova.define("<pluginId>.<moduleName>", ...)` envelope, where
the module name is `obj.name` when present (and non-empty) and
otherwise the source basename without its extension. -/
theorem jsModuleInstall_json_wraps
    (obj : Directive) (plugin : PluginHandle) (project : ProjectHandle) (options : Options)
    (fs : FS) (src raw : String) (fs1 : FS)
    (hsrc : obj.src = some src)
    (hvs : validSeg src)
    (hjson : strHasSuffix src ".json" = true)
    (habs : strIsAbs plugin.dir = true)
    (hread : readFileSync fs (pathResolve plugin.dir src) = Except.ok raw)
    (hmk : mkdirSyncRec fs (pathDirname (pathResolve (pathResolve (pathResolve project.www
      "plugins") plugin.id) src)) = Except.ok fs1)
    (hplat : options.usePlatformWww = false) :
    jsModuleInstall obj plugin project options fs =
      (none, writeFileSync fs1
        (pathResolve (pathResolve (pathResolve project.www "plugins") plugin.id) src)
        ("cordova.define(\"" ++ (plugin.id ++ "." ++
          orDefault obj.name (pathBasenameExt src (pathExtname src))) ++
          "\", function(require, exports, module) \x7b\n" ++
          ("module.exports = " ++ stripBOM raw) ++ "\n\x7d);\n")) := by
  have hms : strHasSuffix (pathResolve plugin.dir src) ".json" = true := by
    rw [pathResolve_push_valid plugin.dir src habs hvs]
    obtain ⟨x, hx⟩ := absOfSegs_append_last (resolvedSegs plugin.dir) src
    rw [hx]
    exact strHasSuffix_append_left x src ".json" hjson
  simp [jsModuleInstall, hsrc, hread, hms, hmk, hplat, String.append_assoc]

end PluginHandlers

namespace PluginHandlers

theorem pruneLoop_zero (fs : FS) (stopAt curDir : String) :
    pruneLoop 0 fs stopAt curDir = (none, fs) := rfl

theorem pruneLoop_succ (n : Nat) (fs : FS) (stopAt curDir : String) :
    pruneLoop (n + 1) fs stopAt curDir =
      if curDir = stopAt then (none, fs)
      else if existsSync fs curDir && (readdirSync fs curDir).isEmpty then
        (match rmdirSync fs curDir with
         | Except.error e => (some e, fs)
         | Except.ok fs1 => pruneLoop n fs1 stopAt (pathResolve curDir ".."))
      else (none, fs) := rfl

theorem rmdirSync_error_form (fs : FS) (p : String) (e : JSError)
    (h : rmdirSync fs p = Except.error e) : ∃ m, e = JSError.fsError m := by
  rw [show rmdirSync fs p =
      (if resolvedSegs p = [] then Except.error (JSError.fsError "EBUSY: rmdir /")
       else
         match fsGet fs (resolvedSegs p) with
         | some FSNode.dir =>
           if (fsChildren fs (resolvedSegs p)).isEmpty then
             Except.ok (fsErase fs (resolvedSegs p))
           else Except.error (JSError.fsError "ENOTEMPTY")
         | some _ => Except.error (JSError.fsError "ENOTDIR")
         | none => Except.error (JSError.fsError "ENOENT")) from rfl] at h
  split at h
  · exact ⟨_, (Except.error.inj h).symm⟩
  · split at h
    · split at h
      · exact absurd h (by simp)
      · exact ⟨_, (Except.error.inj h).symm⟩
    · exact ⟨_, (Except.error.inj h).symm⟩
    · exact ⟨_, (Except.error.inj h).symm⟩

theorem pruneLoop_error_form (fuel : Nat) : ∀ fs stopAt curDir e,
    (pruneLoop fuel fs stopAt curDir).1 = some e → ∃ m, e = JSError.fsError m := by
  induction fuel with
  | zero =>
    intro fs stopAt curDir e h
    rw [pruneLoop_zero] at h
    exact absurd h (by simp)
  | succ n ih =>
    intro fs stopAt curDir e h
    rw [pruneLoop_succ] at h
    split at h
    · exact absurd h (by simp)
    · split at h
      · split at h
        · next e2 heq =>
          refine rmdirSync_error_form fs curDir e2 heq |>.imp fun m hm => ?_
          rw [← hm]
          exact (Option.some.inj h).symm
        · next fs1 heq => exact ih fs1 stopAt (pathResolve curDir "..") e h
      · exact absurd h (by simp)

theorem removeFileAndParents_error_form (fs : FS) (baseDir destFile : String)
    (stopper0 : Option String) (e : JSError)
    (h : (removeFileAndParents fs baseDir destFile stopper0).1 = some e) :
    ∃ m, e = JSError.fsError m := by
  rw [show removeFileAndParents fs baseDir destFile stopper0 =
      (if existsSync fs (pathResolve baseDir destFile) = false then (none, fs)
       else
         pruneLoop ((resolvedSegs (pathResolve baseDir destFile)).length + 1)
           (rmSyncRF fs (pathResolve baseDir destFile))
           (pathResolve baseDir (stopper0.getD "."))
           (pathDirname (pathResolve baseDir destFile))) from rfl] at h
  split at h
  · exact absurd h (by simp)
  · exact pruneLoop_error_form _ _ _ _ e h

theorem assetPrunePair_not_cordova (wwwRoot platRoot t : String) (usePlat : Bool)
    (fs fsX : FS) (msg : String)
    (h : (match removeFileAndParents fs wwwRoot t none with
          | (some e, fs1) => (some e, fs1)
          | (none, fs1) =>
            if usePlat then removeFileAndParents fs1 platRoot t none
            else (none, fs1)) =
      (some (JSError.cordova msg), fsX)) : False := by
  revert h
  cases hrm : removeFileAndParents fs wwwRoot t none with
  | mk err fs1 =>
    cases err with
    | some e =>
      intro h
      obtain ⟨m, hm⟩ := removeFileAndParents_error_form fs wwwRoot t none e (by rw [hrm])
      rw [hm] at h
      exact JSError.noConfusion (Option.some.inj (congrArg Prod.fst h))
    | none =>
      intro h
      simp only at h
      by_cases hp : usePlat = true
      · rw [if_pos hp] at h
        cases hrm2 : removeFileAndParents fs1 platRoot t none with
        | mk err2 fs2 =>
          rw [hrm2] at h
          cases err2 with
          | some e2 =>
            obtain ⟨m, hm⟩ := removeFileAndParents_error_form fs1 platRoot t none e2
              (by rw [hrm2])
            rw [hm] at h
            exact JSError.noConfusion (Option.some.inj (congrArg Prod.fst h))
          | none => exact Option.noConfusion (congrArg Prod.fst h)
      · rw [if_neg hp] at h
        exact Option.noConfusion (congrArg Prod.fst h)

/-- C10.  An asset uninstall directive with no (truthy) `target` but a
truthy `src` does not raise a `ConfigurationError`: it uses `src` in
place of `target`, prune-removing `<www>/<src>` and, when
`usePlatformWww` is set, `<platformWww>/<src>`; the
`ConfigurationError` is raised exactly when both `target` and `src` are
absent (or empty). -/
theorem assetUninstall_src_fallback
    (obj : Directive) (plugin : PluginHandle) (project : ProjectHandle) (options : Options)
    (fs : FS) :
    (truthy obj.target = false → truthy obj.src = true →
      assetUninstall obj plugin project options fs =
        (match removeFileAndParents fs project.www (obj.src.getD "") none with
         | (some e, fs1) => (some e, fs1)
         | (none, fs1) =>
           if options.usePlatformWww then
             removeFileAndParents fs1 project.platformWww (obj.src.getD "") none
           else (none, fs1))) ∧
    (assetUninstall obj plugin project options fs =
        (some (JSError.cordova (generateAttributeError "target" "asset" plugin.id)), fs) ↔
      truthy obj.target = false ∧ truthy obj.src = false) := by
  have hshow : assetUninstall obj plugin project options fs =
      (let target := if truthy obj.target then obj.target else obj.src
       if truthy target = false then
         (some (JSError.cordova (generateAttributeError "target" "asset" plugin.id)), fs)
       else
         match removeFileAndParents fs project.www (target.getD "") none with
         | (some e, fs1) => (some e, fs1)
         | (none, fs1) =>
           if options.usePlatformWww then
             removeFileAndParents fs1 project.platformWww (target.getD "") none
           else (none, fs1)) := rfl
  constructor
  · intro h1 h2
    rw [hshow]
    simp only [h1, Bool.false_eq_true, if_false, h2]
    rw [if_neg (by simp [h2])]
  · constructor
    · intro h
      rw [hshow] at h
      by_cases h1 : truthy obj.target = true
      · exfalso
        simp only [h1, if_true] at h
        rw [if_neg (by simp [h1])] at h
        exact assetPrunePair_not_cordova project.www project.platformWww (obj.target.getD "")
          options.usePlatformWww fs fs _ h
      · have h1f : truthy obj.target = false := by
          cases hx : truthy obj.target
          · rfl
          · exact absurd hx h1
        simp only [h1f, Bool.false_eq_true, if_false] at h
        by_cases h2 : truthy obj.src = true
        · exfalso
          rw [if_neg (by simp [h2])] at h
          exact assetPrunePair_not_cordova project.www project.platformWww (obj.src.getD "")
            options.usePlatformWww fs fs _ h
        · refine ⟨h1f, ?_⟩
          cases hx : truthy obj.src
          · rfl
          · exact absurd hx h2
    · intro hpair
      rw [hshow]
      simp only [hpair.1, Bool.false_eq_true, if_false, hpair.2]
      rw [if_pos (by simp [hpair.2])]

end PluginHandlers

namespace PluginHandlers

/-- Witness for C9, on a concrete `[1, 2]` JSON module. -/
theorem jsModuleInstall_json_wraps_witness :
    readFileSync fsJsonModule (pathResolve "/plugin" "foo.json") = Except.ok "[1, 2]" ∧
    jsModuleInstall { src := some "foo.json" } examplePlugin exampleProject {} fsJsonModule =
      (none,
       ⟨[(["www", "plugins", "com.example.plugin", "foo.json"],
          FSNode.file ("cordova.define(\"com.example.plugin.foo\", function(require, exports, module) \x7b\nmodule.exports = [1, 2]\n\x7d);\n")),
         (["www", "plugins", "com.example.plugin"], FSNode.dir),
         (["www", "plugins"], FSNode.dir),
         (["plugin"], FSNode.dir),
         (["plugin", "foo.json"], FSNode.file "[1, 2]"),
         (["www"], FSNode.dir)]⟩) := by
  refine ⟨by decide, ?_⟩
  have h := jsModuleInstall_json_wraps { src := some "foo.json" } examplePlugin
    exampleProject {} fsJsonModule "foo.json" "[1, 2]"
    ⟨[(["www", "plugins", "com.example.plugin"], FSNode.dir),
      (["www", "plugins"], FSNode.dir),
      (["plugin"], FSNode.dir),
      (["plugin", "foo.json"], FSNode.file "[1, 2]"),
      (["www"], FSNode.dir)]⟩
    rfl (by decide) (by decide) (by decide) (by decide) (by decide) rfl
  exact h.trans (by decide)

/-- Witness for C10: a `src`-only asset uninstall removes the asset
from both roots without a configuration error, and a fully attribute-free
one raises the configuration error. -/
theorem assetUninstall_src_fallback_witness :
    truthy (Directive.target { src := some "thing.css" }) = false ∧
    assetUninstall { src := some "thing.css" } examplePlugin exampleProject exampleOptionsWww
        fsAssetOnly =
      (none, ⟨[(["www"], FSNode.dir), (["www", "keep.txt"], FSNode.file "k"),
               (["platform_www"], FSNode.dir)]⟩) ∧
    assetUninstall {} examplePlugin exampleProject exampleOptionsWww fsAssetOnly =
      (some (JSError.cordova (generateAttributeError "target" "asset" "com.example.plugin")),
       fsAssetOnly) := by
  have h := assetUninstall_src_fallback { src := some "thing.css" } examplePlugin
    exampleProject exampleOptionsWww fsAssetOnly
  have h2 := assetUninstall_src_fallback {} examplePlugin exampleProject exampleOptionsWww
    fsAssetOnly
  refine ⟨by decide, ?_, ?_⟩
  · exact (h.1 (by decide) (by decide)).trans (by decide)
  · exact h2.2.mpr ⟨by decide, by decide⟩

end PluginHandlers

namespace PluginHandlers

/-! ### Canonical keys: validity of resolved segments -/

theorem splitSegsAux_out_no_slash (l : List Char) :
    ∀ cur, ¬ '/' ∈ cur → ∀ piece ∈ splitSegsAux cur l, ¬ '/' ∈ piece := by
  induction l with
  | nil =>
    intro cur hcur piece hp
    rw [show splitSegsAux cur [] = [cur.reverse] from rfl] at hp
    simp at hp
    subst hp
    simpa using hcur
  | cons c cs ih =>
    intro cur hcur piece hp
    by_cases hc : c = '/'
    · subst hc
      rw [show splitSegsAux cur ('/' :: cs) = cur.reverse :: splitSegsAux [] cs from by
            rw [splitSegsAux, if_pos rfl]] at hp
      rcases List.mem_cons.mp hp with rfl | hp2
      · simpa using hcur
      · exact ih [] (by simp) piece hp2
    · rw [show splitSegsAux cur (c :: cs) = splitSegsAux (c :: cur) cs from by
            rw [splitSegsAux, if_neg hc]] at hp
      exact ih (c :: cur) (by simp [hcur, Ne.symm hc]) piece hp

theorem pathSegs_no_slash (s : String) : ∀ q ∈ pathSegs s, ¬ '/' ∈ q.data := by
  intro q hq
  unfold pathSegs at hq
  rw [List.mem_map] at hq
  obtain ⟨piece, hp, rfl⟩ := hq
  exact splitSegsAux_out_no_slash s.data [] (by simp) piece hp

theorem normAux_false_valid (l : List String) :
    ∀ acc, (∀ s ∈ acc, validSeg s) → (∀ s ∈ l, ¬ '/' ∈ s.data) →
      ∀ s ∈ normAux false acc l, validSeg s := by
  induction l with
  | nil =>
    intro acc hacc _ s hs
    rw [normAux_nil, List.mem_reverse] at hs
    exact hacc s hs
  | cons q rest ih =>
    intro acc hacc hsl s hs
    have hrest : ∀ x ∈ rest, ¬ '/' ∈ x.data := fun x hx => hsl x (by simp [hx])
    rw [normAux_cons] at hs
    by_cases h0 : q = ""
    · rw [if_pos h0] at hs
      exact ih acc hacc hrest s hs
    · rw [if_neg h0] at hs
      by_cases h1 : q = "."
      · rw [if_pos h1] at hs
        exact ih acc hacc hrest s hs
      · rw [if_neg h1] at hs
        by_cases h2 : q = ".."
        · rw [if_pos h2] at hs
          cases acc with
          | nil =>
            simp only [Bool.false_eq_true, if_false] at hs
            exact ih [] (by simp) hrest s hs
          | cons t acc2 =>
            dsimp only at hs
            by_cases ht : t = ".."
            · rw [if_pos ht] at hs
              exact ih (".." :: t :: acc2) (by
                intro x hx
                rcases List.mem_cons.mp hx with rfl | hx2
                · exact absurd (ht ▸ hacc t (by simp)) (by simp [validSeg, ht])
                · exact hacc x hx2) hrest s hs
            · rw [if_neg ht] at hs
              exact ih acc2 (fun x hx => hacc x (by simp [hx])) hrest s hs
        · rw [if_neg h2] at hs
          refine ih (q :: acc) ?_ hrest s hs
          intro x hx
          rcases List.mem_cons.mp hx with rfl | hx2
          · exact ⟨h0, h1, h2, hsl x (by simp)⟩
          · exact hacc x hx2

theorem validKey_resolvedSegs (s : String) : validKey (resolvedSegs s) := by
  intro q hq
  exact normAux_false_valid (pathSegs s) [] (by simp) (pathSegs_no_slash s) q hq

end PluginHandlers

namespace PluginHandlers

/-! ### Canonical path round trips -/

theorem pathSegs_slash_cons (x : String) : pathSegs ("/" ++ x) = "" :: pathSegs x := by
  unfold pathSegs
  rw [show ("/" ++ x).data = '/' :: x.data from by rw [String.data_append]; rfl]
  rw [show splitSegsAux [] ('/' :: x.data) = [].reverse :: splitSegsAux [] x.data from by
        rw [splitSegsAux, if_pos rfl]]
  rfl

theorem flatten_map_pathSegs (l : List String) (h : validKey l) :
    (l.map pathSegs).flatten = l := by
  induction l with
  | nil => rfl
  | cons x xs ih =>
    rw [List.map_cons, List.flatten_cons, pathSegs_single x (h x (by simp)).2.2.2,
        ih (fun s hs => h s (by simp [hs]))]
    rfl

theorem filterSeg_id_of_valid (l : List String) (h : validKey l) : filterSeg l = l := by
  induction l with
  | nil => rfl
  | cons x xs ih =>
    have hx := h x (by simp)
    unfold filterSeg
    rw [List.filter_cons_of_pos (by simp [hx.1, hx.2.1])]
    rw [show List.filter (fun s => !(s == "" || s == ".")) xs = filterSeg xs from rfl,
        ih (fun s hs => h s (by simp [hs]))]

theorem resolvedSegs_absOfSegs (l : List String) (h : validKey l) :
    resolvedSegs (absOfSegs l) = l := by
  cases l with
  | nil => rfl
  | cons x xs =>
    unfold resolvedSegs absOfSegs
    rw [pathSegs_slash_cons, pathSegs_joinSlash (x :: xs) (by simp),
        flatten_map_pathSegs (x :: xs) h]
    rw [normAux_cons, if_pos rfl]
    rw [normAux_eq_filter false (x :: xs) [] (fun s hs => (h s hs).2.2.1)]
    rw [filterSeg_id_of_valid (x :: xs) h]
    rfl

theorem absOfSegs_isAbs (l : List String) : strIsAbs (absOfSegs l) = true := rfl

theorem pathResolve_canonical (b p : String) :
    absOfSegs (resolvedSegs (pathResolve b p)) = pathResolve b p := by
  unfold pathResolve
  rw [resolvedSegs_absOfSegs _ (validKey_resolvedSegs _)]

theorem resolvedSegs_pathResolve (b p : String) :
    resolvedSegs (pathResolve b p) =
      resolvedSegs (if strIsAbs p then p
                    else if strIsAbs b then b ++ "/" ++ p else "/" ++ b ++ "/" ++ p) := by
  unfold pathResolve
  rw [resolvedSegs_absOfSegs _ (validKey_resolvedSegs _)]

theorem absOfSegs_inj (l1 l2 : List String) (h1 : validKey l1) (h2 : validKey l2)
    (h : absOfSegs l1 = absOfSegs l2) : l1 = l2 := by
  rw [← resolvedSegs_absOfSegs l1 h1, ← resolvedSegs_absOfSegs l2 h2, h]

end PluginHandlers

namespace PluginHandlers

/-! ### dirname and dot-dot on canonical absolute paths -/

theorem dropWhile_all_append (p : Char → Bool) (xs ys : List Char)
    (h : ∀ x ∈ xs, p x = true) : (xs ++ ys).dropWhile p = ys.dropWhile p := by
  induction xs with
  | nil => rfl
  | cons a l ih =>
    rw [List.cons_append, List.dropWhile_cons_of_pos (h a (by simp))]
    exact ih (fun x hx => h x (by simp [hx]))

theorem dropWhile_slash_rev (s : String) (rest : List Char) (h1 : s.data ≠ [])
    (h2 : ∀ c ∈ s.data, c ≠ '/') :
    (s.data.reverse ++ rest).dropWhile (fun c => c = '/') = s.data.reverse ++ rest := by
  cases hrev : s.data.reverse with
  | nil => exact absurd (List.reverse_eq_nil_iff.mp hrev) h1
  | cons c cs =>
    have hc : c ≠ '/' := h2 c (by rw [← List.mem_reverse, hrev]; simp)
    rw [List.cons_append, List.dropWhile_cons_of_neg (by simp [hc])]

theorem dropWhile_nonslash_rev (s : String) (rest : List Char)
    (h2 : ∀ c ∈ s.data, c ≠ '/') :
    (s.data.reverse ++ '/' :: rest).dropWhile (fun c => c ≠ '/') = '/' :: rest := by
  rw [dropWhile_all_append _ _ _
        (fun x hx => by simp [h2 x (List.mem_reverse.mp hx)]),
      List.dropWhile_cons_of_neg (by simp)]

theorem strNeEmpty_of_data (s : String) (c : Char) (cs : List Char)
    (h : s.data = c :: cs) : s ≠ "" := by
  intro hq
  rw [hq] at h
  exact List.noConfusion h

theorem absOfSegs_singleton_data (s : String) : (absOfSegs [s]).data = '/' :: s.data := by
  unfold absOfSegs
  rw [show joinSlash [s] = s from rfl, String.data_append]
  rfl

theorem joinSlash_data_ne_nil (a : String) (r2 : List String) (ha : a.data ≠ []) :
    (joinSlash (a :: r2)).data ≠ [] := by
  intro hq
  have hh := joinSlash_head a r2 ha
  rw [hq] at hh
  cases hd : a.data with
  | nil => exact ha hd
  | cons c cs => rw [hd] at hh; simp at hh

theorem pathDirname_absOfSegs (l : List String) (h : validKey l) :
    pathDirname (absOfSegs l) = absOfSegs l.dropLast := by
  rcases List.eq_nil_or_concat l with rfl | ⟨l2, s, rfl⟩
  · decide
  rw [List.concat_eq_append] at h ⊢
  have hs := h s (by simp)
  have hsne : s.data ≠ [] := strDataNeNil s hs.1
  have hnos : ∀ c ∈ s.data, c ≠ '/' := fun c hc hq => hs.2.2.2 (hq ▸ hc)
  cases l2 with
  | nil =>
    rw [List.nil_append]
    have hdata : (absOfSegs [s]).data = '/' :: s.data := absOfSegs_singleton_data s
    have hne : absOfSegs [s] ≠ "" := strNeEmpty_of_data _ _ _ hdata
    unfold pathDirname
    rw [if_neg hne, hdata, List.reverse_cons]
    dsimp only
    rw [dropWhile_slash_rev s ['/'] hsne hnos,
        show s.data.reverse ++ ['/'] = s.data.reverse ++ '/' :: [] from rfl,
        dropWhile_nonslash_rev s [] hnos]
    dsimp only
    rw [if_pos rfl, show strIsAbs (absOfSegs [s]) = true from rfl]
    rfl
  | cons a r2 =>
    have ha := h a (by simp)
    have hD : (joinSlash (a :: r2)).data ≠ [] :=
      joinSlash_data_ne_nil a r2 (strDataNeNil a ha.1)
    have hdata : (absOfSegs ((a :: r2) ++ [s])).data =
        '/' :: ((joinSlash (a :: r2)).data ++ '/' :: s.data) := by
      unfold absOfSegs
      rw [joinSlash_append (a :: r2) [s] (by simp) (by simp),
          show joinSlash [s] = s from rfl]
      rw [String.data_append, String.data_append, String.data_append]
      rw [show ("/" : String).data = ['/'] from rfl]
      simp [List.append_assoc]
    have hne : absOfSegs ((a :: r2) ++ [s]) ≠ "" := strNeEmpty_of_data _ _ _ hdata
    have hrev : (absOfSegs ((a :: r2) ++ [s])).data.reverse =
        s.data.reverse ++ '/' :: ((joinSlash (a :: r2)).data.reverse ++ ['/']) := by
      rw [hdata, List.reverse_cons, List.reverse_append, List.reverse_cons]
      simp [List.append_assoc]
    unfold pathDirname
    rw [if_neg hne, hrev]
    dsimp only
    rw [dropWhile_slash_rev s ('/' :: ((joinSlash (a :: r2)).data.reverse ++ ['/']))
          hsne hnos,
        dropWhile_nonslash_rev s ((joinSlash (a :: r2)).data.reverse ++ ['/']) hnos]
    dsimp only
    rw [if_neg (by simp : ¬((joinSlash (a :: r2)).data.reverse ++ ['/']) = [])]
    rw [if_neg (show ¬(strIsAbs (absOfSegs ((a :: r2) ++ [s])) &&
          ((joinSlash (a :: r2)).data.reverse ++ ['/']).length == 1) = true from by
        intro hq
        have h2 := (Bool.and_eq_true _ _).mp hq
        have h3 : ((joinSlash (a :: r2)).data.reverse ++ ['/']).length = 1 :=
          by simpa using h2.2
        rw [List.length_append, List.length_reverse] at h3
        simp at h3
        exact hD (List.length_eq_zero.mp h3))]
    rw [List.dropLast_concat]
    have hprev : ((joinSlash (a :: r2)).data.reverse ++ ['/']).reverse =
        '/' :: (joinSlash (a :: r2)).data := by
      rw [List.reverse_append, List.reverse_reverse]
      rfl
    rw [hprev]
    apply String.ext
    unfold absOfSegs
    rw [String.data_append]
    rfl

end PluginHandlers

namespace PluginHandlers

theorem pathResolve_dotdot (l : List String) (h : validKey l) :
    pathResolve (absOfSegs l) ".." = absOfSegs l.dropLast := by
  unfold pathResolve
  simp only [show strIsAbs ".." = false from rfl, absOfSegs_isAbs, Bool.false_eq_true,
    if_false, if_true]
  unfold resolvedSegs
  rw [pathSegs_append, show pathSegs ".." = [".."] from rfl, normAux_append,
      show normAux false [] (pathSegs (absOfSegs l)) = resolvedSegs (absOfSegs l) from rfl,
      resolvedSegs_absOfSegs l h]
  rw [normAux_cons, if_neg (by decide : ¬(".." : String) = ""),
      if_neg (by decide : ¬(".." : String) = "."), if_pos rfl]
  cases hl : l.reverse with
  | nil =>
    rw [List.reverse_eq_nil_iff.mp hl]
    rfl
  | cons t acc2 =>
    have hlv : l = acc2.reverse ++ [t] := by
      rw [← List.reverse_reverse l, hl, List.reverse_cons]
    have ht : t ≠ ".." := by
      have : t ∈ l := by rw [hlv]; simp
      exact (h t this).2.2.1
    dsimp only
    rw [if_neg ht, normAux_nil, hlv, List.dropLast_concat]

end PluginHandlers

namespace PluginHandlers

/-! ### Lookup after erasing -/

theorem find?_filter_notPrefix (k j : List String) (l : List (List String × FSNode)) :
    ((l.filter (fun e => !(k.isPrefixOf e.1))).find? (fun e => e.1 == j)).map
        (fun e => e.2) =
      if k.isPrefixOf j then none
      else (l.find? (fun e => e.1 == j)).map (fun e => e.2) := by
  induction l with
  | nil => cases hk : k.isPrefixOf j <;> simp
  | cons e t ih =>
    by_cases hke : k.isPrefixOf e.1 = true
    · rw [List.filter_cons_of_neg (by simp [hke]), ih]
      by_cases hkj : k.isPrefixOf j = true
      · rw [if_pos hkj, if_pos hkj]
      · rw [if_neg hkj, if_neg hkj,
            @List.find?_cons_of_neg _ (fun e => e.1 == j) e t (by
              simp only [beq_iff_eq]
              intro hej
              exact hkj (hej ▸ hke))]
    · rw [List.filter_cons_of_pos (by simp [hke])]
      by_cases hej : (e.1 == j) = true
      · have hej2 : e.1 = j := by simpa using hej
        rw [@List.find?_cons_of_pos _ (fun e => e.1 == j) e (List.filter
              (fun e => !(k.isPrefixOf e.1)) t) hej,
            @List.find?_cons_of_pos _ (fun e => e.1 == j) e t hej,
            if_neg (hej2 ▸ hke)]
      · rw [@List.find?_cons_of_neg _ (fun e => e.1 == j) e (List.filter
              (fun e => !(k.isPrefixOf e.1)) t) hej,
            @List.find?_cons_of_neg _ (fun e => e.1 == j) e t hej, ih]

theorem fsLookup_eraseTree (fs : FS) (k j : List String) :
    fsLookup (fsEraseTree fs k) j =
      if k.isPrefixOf j then none else fsLookup fs j := by
  unfold fsLookup fsEraseTree
  exact find?_filter_notPrefix k j fs.entries

theorem fsGet_eraseTree (fs : FS) (k j : List String) (hj : j ≠ []) :
    fsGet (fsEraseTree fs k) j = if k.isPrefixOf j then none else fsGet fs j := by
  unfold fsGet
  rw [if_neg hj, if_neg hj, fsLookup_eraseTree]

theorem find?_filter_notKey (k j : List String) (l : List (List String × FSNode)) :
    ((l.filter (fun e => !(e.1 == k))).find? (fun e => e.1 == j)).map (fun e => e.2) =
      if j = k then none else (l.find? (fun e => e.1 == j)).map (fun e => e.2) := by
  induction l with
  | nil => by_cases hk : j = k <;> simp [hk]
  | cons e t ih =>
    by_cases hke : (e.1 == k) = true
    · have hke2 : e.1 = k := by simpa using hke
      rw [List.filter_cons_of_neg (by simp [hke]), ih]
      by_cases hkj : j = k
      · rw [if_pos hkj, if_pos hkj]
      · rw [if_neg hkj, if_neg hkj,
            @List.find?_cons_of_neg _ (fun e => e.1 == j) e t (by
              simp only [beq_iff_eq]
              intro hej
              exact hkj (by rw [← hej, hke2]))]
    · rw [List.filter_cons_of_pos (by simp [hke])]
      by_cases hej : (e.1 == j) = true
      · have hej2 : e.1 = j := by simpa using hej
        rw [@List.find?_cons_of_pos _ (fun e => e.1 == j) e (List.filter
              (fun e => !(e.1 == k)) t) hej,
            @List.find?_cons_of_pos _ (fun e => e.1 == j) e t hej,
            if_neg (by
              intro hjk
              exact hke (by simp [hej2, hjk]))]
      · rw [@List.find?_cons_of_neg _ (fun e => e.1 == j) e (List.filter
              (fun e => !(e.1 == k)) t) hej,
            @List.find?_cons_of_neg _ (fun e => e.1 == j) e t hej, ih]

theorem fsLookup_fsErase (fs : FS) (k j : List String) :
    fsLookup (fsErase fs k) j = if j = k then none else fsLookup fs j := by
  unfold fsLookup fsErase
  exact find?_filter_notKey k j fs.entries

theorem fsGet_fsErase (fs : FS) (k j : List String) (hj : j ≠ []) :
    fsGet (fsErase fs k) j = if j = k then none else fsGet fs j := by
  unfold fsGet
  rw [if_neg hj, if_neg hj, fsLookup_fsErase]

theorem fsGet_mem (fs : FS) (k : List String) (v : FSNode) (hk : k ≠ [])
    (h : fsGet fs k = some v) : (k, v) ∈ fs.entries := by
  unfold fsGet at h
  rw [if_neg hk] at h
  unfold fsLookup at h
  cases hf : fs.entries.find? (fun e => e.1 == k) with
  | none => rw [hf] at h; simp at h
  | some e =>
    rw [hf] at h
    have hv : e.2 = v := Option.some.inj h
    have hm := List.mem_of_find?_eq_some hf
    have hp := List.find?_some hf
    simp only [beq_iff_eq] at hp
    have hekv : e = (k, v) := by
      cases e with
      | mk e1 e2 =>
        simp only at hp hv
        rw [hp, hv]
    rw [← hekv]
    exact hm

end PluginHandlers

namespace PluginHandlers

/-! ### Well-formedness preservation -/

theorem fsChildren_nil_no_child (fs : FS) (k : List String)
    (h : fsChildren fs k = []) :
    ∀ e ∈ fs.entries, e.1 = [] ∨ e.1.dropLast ≠ k := by
  intro e he
  have hnone := List.filterMap_eq_nil_iff.mp h e he
  cases hrev : e.1.reverse with
  | nil => exact Or.inl (List.reverse_eq_nil_iff.mp hrev)
  | cons c restRev =>
    right
    intro hdk
    rw [hrev] at hnone
    dsimp only at hnone
    have he1 : e.1 = restRev.reverse ++ [c] := by
      rw [← List.reverse_reverse e.1, hrev, List.reverse_cons]
    rw [he1, List.dropLast_concat] at hdk
    rw [if_pos (by simp [hdk])] at hnone
    exact Option.noConfusion hnone

theorem noSymlinks_eraseTree (fs : FS) (k : List String) (h : noSymlinks fs) :
    noSymlinks (fsEraseTree fs k) :=
  fun e he => h e (List.mem_of_mem_filter he)

theorem noSymlinks_fsErase (fs : FS) (k : List String) (h : noSymlinks fs) :
    noSymlinks (fsErase fs k) :=
  fun e he => h e (List.mem_of_mem_filter he)

theorem wfFS_eraseTree (fs : FS) (k : List String) (h : wfFS fs) :
    wfFS (fsEraseTree fs k) := by
  obtain ⟨hnd, hcl⟩ := h
  constructor
  · exact ((List.filter_sublist fs.entries).map (fun e => e.1)).nodup hnd
  · intro e he
    have hem := List.mem_of_mem_filter he
    have hef := List.of_mem_filter he
    obtain ⟨h1, h2, h3⟩ := hcl e hem
    refine ⟨h1, h2, ?_⟩
    rcases h3 with h3 | h3
    · exact Or.inl h3
    · right
      rw [fsLookup_eraseTree]
      rw [if_neg (by
        intro hkp
        have hkd : k <+: e.1.dropLast := List.isPrefixOf_iff_prefix.mp hkp
        have : k.isPrefixOf e.1 = true :=
          List.isPrefixOf_iff_prefix.mpr (hkd.trans (List.dropLast_prefix e.1))
        rw [this] at hef
        exact Bool.noConfusion hef), h3]

theorem wfFS_fsErase (fs : FS) (k : List String) (h : wfFS fs)
    (hch : fsChildren fs k = []) : wfFS (fsErase fs k) := by
  obtain ⟨hnd, hcl⟩ := h
  constructor
  · exact ((List.filter_sublist fs.entries).map (fun e => e.1)).nodup hnd
  · intro e he
    have hem := List.mem_of_mem_filter he
    obtain ⟨h1, h2, h3⟩ := hcl e hem
    refine ⟨h1, h2, ?_⟩
    rcases h3 with h3 | h3
    · exact Or.inl h3
    · right
      rw [fsLookup_fsErase]
      rw [if_neg (by
        intro hdk
        rcases fsChildren_nil_no_child fs k hch e hem with hnil | hne
        · exact h1 hnil
        · exact hne hdk), h3]

end PluginHandlers

namespace PluginHandlers

/-! ### The realpath walk on a symlink-free filesystem -/

theorem fsGet_not_symlink (fs : FS) (hns : noSymlinks fs) (k : List String) (t : String) :
    fsGet fs k ≠ some (FSNode.symlink t) := by
  intro h
  by_cases hk : k = []
  · rw [hk] at h
    exact FSNode.noConfusion (Option.some.inj h)
  · have hm := fsGet_mem fs k _ hk h
    have h2 := hns _ hm
    simp [isSymlinkNode] at h2

theorem chainOk_nil (fs : FS) (done : List String) :
    chainOk fs done [] = (fsGet fs done).isSome := rfl

theorem chainOk_cons (fs : FS) (done : List String) (s : String) (r : List String) :
    chainOk fs done (s :: r) =
      ((fsGet fs (done ++ [s])).isSome && chainOk fs (done ++ [s]) r) := rfl

theorem realpathAux_nil (fs : FS) (n : Nat) (done : List String) :
    realpathAux fs (n + 1) done [] =
      (if (fsGet fs done).isSome then some done else none) := rfl

theorem realpathAux_cons (fs : FS) (n : Nat) (done : List String) (s : String)
    (rest : List String) :
    realpathAux fs (n + 1) done (s :: rest) =
      (match fsGet fs (done ++ [s]) with
       | some (FSNode.symlink t) =>
         realpathAux fs n []
           ((if strIsAbs t then resolvedSegs t
             else normAux false [] (done ++ pathSegs t)) ++ rest)
       | some _ => realpathAux fs n (done ++ [s]) rest
       | none => none) := rfl

theorem realpathAux_no_symlinks (fs : FS) (hns : noSymlinks fs) :
    ∀ fuel done rest, rest.length < fuel →
      realpathAux fs fuel done rest =
        (if chainOk fs done rest then some (done ++ rest) else none) := by
  intro fuel
  induction fuel with
  | zero => intro done rest h; exact absurd h (Nat.not_lt_zero _)
  | succ n ih =>
    intro done rest hlen
    cases rest with
    | nil =>
      rw [realpathAux_nil, chainOk_nil, List.append_nil]
    | cons s r =>
      rw [realpathAux_cons, chainOk_cons]
      cases hg : fsGet fs (done ++ [s]) with
      | none => simp
      | some v =>
        cases v with
        | symlink t => exact absurd hg (fsGet_not_symlink fs hns _ t)
        | file c =>
          rw [ih (done ++ [s]) r (by simpa using Nat.lt_of_succ_lt_succ hlen)]
          simp [List.append_assoc]
        | dir =>
          rw [ih (done ++ [s]) r (by simpa using Nat.lt_of_succ_lt_succ hlen)]
          simp [List.append_assoc]

theorem chainOk_get (fs : FS) : ∀ rest done, chainOk fs done rest = true →
    (fsGet fs (done ++ rest)).isSome = true := by
  intro rest
  induction rest with
  | nil =>
    intro done h
    rw [List.append_nil]
    exact h
  | cons s r ih =>
    intro done h
    rw [chainOk_cons] at h
    have h2 := (Bool.and_eq_true _ _).mp h
    have h3 := ih (done ++ [s]) h2.2
    rw [List.append_assoc] at h3
    simpa using h3

theorem fsGet_ancestor (fs : FS) (h : wfFS fs) (l : List String) (s : String)
    (hg : (fsGet fs (l ++ [s])).isSome = true) : (fsGet fs l).isSome = true := by
  cases hv : fsGet fs (l ++ [s]) with
  | none => rw [hv] at hg; exact Bool.noConfusion hg
  | some v =>
    have hm := fsGet_mem fs (l ++ [s]) v (by simp) hv
    obtain ⟨h1, h2, h3⟩ := h.2 _ hm
    rcases h3 with h3 | h3
    · rw [List.dropLast_concat] at h3
      rw [h3]
      rfl
    · rw [List.dropLast_concat] at h3
      by_cases hl : l = []
      · rw [hl]; rfl
      · unfold fsGet
        rw [if_neg hl, h3]
        rfl

theorem fsGet_prefix_exists (fs : FS) (h : wfFS fs) :
    ∀ y x, (fsGet fs (x ++ y)).isSome = true → (fsGet fs x).isSome = true := by
  intro y
  induction y using List.reverseRecOn with
  | nil => intro x h2; simpa using h2
  | append_singleton ys s ih =>
    intro x h2
    rw [← List.append_assoc] at h2
    exact ih x (fsGet_ancestor fs h (x ++ ys) s h2)

theorem chainOk_of_get (fs : FS) (h : wfFS fs) :
    ∀ rest done, (fsGet fs (done ++ rest)).isSome = true → chainOk fs done rest = true := by
  intro rest
  induction rest with
  | nil =>
    intro done h2
    rw [chainOk_nil]
    rw [List.append_nil] at h2
    exact h2
  | cons s r ih =>
    intro done h2
    rw [chainOk_cons]
    rw [show done ++ s :: r = (done ++ [s]) ++ r by simp] at h2
    rw [ih (done ++ [s]) h2, fsGet_prefix_exists fs h r (done ++ [s]) h2]
    rfl

theorem existsSync_absOfSegs (fs : FS) (hwf : wfFS fs) (hns : noSymlinks fs)
    (l : List String) (hv : validKey l) :
    existsSync fs (absOfSegs l) = (fsGet fs l).isSome := by
  unfold existsSync realpathSegs
  rw [resolvedSegs_absOfSegs l hv]
  rw [realpathAux_no_symlinks fs hns _ [] l (by
    have h1 : l.length < fs.entries.length + l.length + 1 := by omega
    have h2 : fs.entries.length + l.length + 1 ≤
        (fs.entries.length + l.length + 1) * (fs.entries.length + 1) :=
      Nat.le_mul_of_pos_right _ (by omega)
    omega)]
  cases hc : chainOk fs [] l with
  | true =>
    rw [if_pos rfl]
    have := chainOk_get fs l [] hc
    rw [List.nil_append] at this
    simp [this]
  | false =>
    rw [if_neg (by simp)]
    cases hg : (fsGet fs l).isSome with
    | false => rfl
    | true =>
      have := chainOk_of_get fs hwf l [] (by rw [List.nil_append]; exact hg)
      rw [this] at hc
      exact Bool.noConfusion hc

end PluginHandlers

namespace PluginHandlers

/-! ### The pruning loop -/

theorem rmdirSync_ok (fs fs2 : FS) (p : String) (h : rmdirSync fs p = Except.ok fs2) :
    resolvedSegs p ≠ [] ∧ fsGet fs (resolvedSegs p) = some FSNode.dir ∧
    fsChildren fs (resolvedSegs p) = [] ∧ fs2 = fsErase fs (resolvedSegs p) := by
  rw [show rmdirSync fs p =
      (if resolvedSegs p = [] then Except.error (JSError.fsError "EBUSY: rmdir /")
       else
         match fsGet fs (resolvedSegs p) with
         | some FSNode.dir =>
           if (fsChildren fs (resolvedSegs p)).isEmpty then
             Except.ok (fsErase fs (resolvedSegs p))
           else Except.error (JSError.fsError "ENOTEMPTY")
         | some _ => Except.error (JSError.fsError "ENOTDIR")
         | none => Except.error (JSError.fsError "ENOENT")) from rfl] at h
  split at h
  · exact absurd h (by simp)
  · next hne =>
    split at h
    · next hdir =>
      split at h
      · next hemp =>
        exact ⟨hne, hdir, List.isEmpty_iff.mp hemp, (Except.ok.inj h).symm⟩
      · exact absurd h (by simp)
    · next v hv hnd => exact absurd h (by simp)
    · exact absurd h (by simp)

theorem prefix_dropLast_of_strict (a b : List String) (h : a <+: b) (hne : b ≠ a) :
    a <+: b.dropLast := by
  obtain ⟨t, rfl⟩ := h
  cases t with
  | nil => exact absurd (List.append_nil a) hne
  | cons x ts =>
    rw [List.dropLast_append_cons]
    exact ⟨(x :: ts).dropLast, rfl⟩

theorem pruneLoop_spec (fuel : Nat) : ∀ (fs : FS) (stop cur : List String),
    wfFS fs → noSymlinks fs → validKey stop → validKey cur → stop <+: cur →
    wfFS (pruneLoop fuel fs (absOfSegs stop) (absOfSegs cur)).2 ∧
    noSymlinks (pruneLoop fuel fs (absOfSegs stop) (absOfSegs cur)).2 ∧
    (∀ j, ¬ (stop <+: j ∧ j <+: cur ∧ j ≠ stop) →
      fsGet (pruneLoop fuel fs (absOfSegs stop) (absOfSegs cur)).2 j = fsGet fs j) ∧
    (∀ j, fsGet (pruneLoop fuel fs (absOfSegs stop) (absOfSegs cur)).2 j = none ∨
      fsGet (pruneLoop fuel fs (absOfSegs stop) (absOfSegs cur)).2 j = fsGet fs j) := by
  induction fuel with
  | zero =>
    intro fs stop cur hwf hns _ _ _
    rw [pruneLoop_zero]
    exact ⟨hwf, hns, fun j _ => rfl, fun j => Or.inr rfl⟩
  | succ n ih =>
    intro fs stop cur hwf hns hvs hvc hsc
    rw [pruneLoop_succ]
    by_cases heq : absOfSegs cur = absOfSegs stop
    · rw [if_pos heq]
      exact ⟨hwf, hns, fun j _ => rfl, fun j => Or.inr rfl⟩
    · rw [if_neg heq]
      have hcs : cur ≠ stop := fun hq => heq (by rw [hq])
      by_cases hguard : (existsSync fs (absOfSegs cur) &&
          (readdirSync fs (absOfSegs cur)).isEmpty) = true
      · rw [if_pos hguard]
        cases hrm : rmdirSync fs (absOfSegs cur) with
        | error e =>
          exact ⟨hwf, hns, fun j _ => rfl, fun j => Or.inr rfl⟩
        | ok fs1 =>
          obtain ⟨hkne, hdir, hch, hfs1⟩ := rmdirSync_ok fs fs1 (absOfSegs cur) hrm
          rw [resolvedSegs_absOfSegs cur hvc] at hkne hdir hch hfs1
          have hstop2 : stop <+: cur.dropLast := prefix_dropLast_of_strict stop cur hsc hcs
          have hvc2 : validKey cur.dropLast :=
            fun s hs => hvc s ((List.dropLast_prefix cur).subset hs)
          have hwf1 : wfFS fs1 := hfs1 ▸ wfFS_fsErase fs cur hwf hch
          have hns1 : noSymlinks fs1 := hfs1 ▸ noSymlinks_fsErase fs cur hns
          rw [pathResolve_dotdot cur hvc]
          obtain ⟨ihwf, ihns, ihframe, ihmono⟩ :=
            ih fs1 stop cur.dropLast hwf1 hns1 hvs hvc2 hstop2
          have hcur_in : stop <+: cur ∧ cur <+: cur ∧ cur ≠ stop :=
            ⟨hsc, List.prefix_refl cur, hcs⟩
          refine ⟨ihwf, ihns, ?_, ?_⟩
          · intro j hj
            have hj2 : ¬ (stop <+: j ∧ j <+: cur.dropLast ∧ j ≠ stop) := by
              intro ⟨ha, hb, hc⟩
              exact hj ⟨ha, hb.trans (List.dropLast_prefix cur), hc⟩
            rw [ihframe j hj2, hfs1]
            by_cases hjnil : j = []
            · rw [hjnil]
              rfl
            · rw [fsGet_fsErase fs cur j hjnil,
                  if_neg (fun hq => hj (by rw [hq]; exact hcur_in))]
          · intro j
            rcases ihmono j with hnone | hsame
            · exact Or.inl hnone
            · rw [hsame, hfs1]
              by_cases hjnil : j = []
              · right
                rw [hjnil]
                rfl
              · rw [fsGet_fsErase fs cur j hjnil]
                by_cases hjc : j = cur
                · exact Or.inl (by rw [if_pos hjc])
                · exact Or.inr (by rw [if_neg hjc])
      · rw [if_neg hguard]
        exact ⟨hwf, hns, fun j _ => rfl, fun j => Or.inr rfl⟩

end PluginHandlers

namespace PluginHandlers

/-- C6.  `removeFileAndParents(baseDir, relPath, stopper)` (stopper
defaulting to `'.'`, i.e. `baseDir` itself): a no-op when the resolved
target does not exist; otherwise it removes the target and its subtree,
then prunes upward only along the ancestor chain strictly between the
stopper `resolve(baseDir, stopper)` and the target's parent — every key
outside the removed subtree and that chain is untouched, the stopper
itself is untouched, and no key is ever created (the final state is
ancestor-closed, so pruning stops at the first surviving ancestor).
Stated for a symlink-free well-formed filesystem whose stopper lies on
the target's ancestor chain. -/
theorem removeFileAndParents_spec
    (fs : FS) (baseDir destFile : String) (stopper0 : Option String)
    (hwf : wfFS fs) (hns : noSymlinks fs)
    (hnil : resolvedSegs (pathResolve baseDir destFile) ≠ [])
    (hstop : resolvedSegs (pathResolve baseDir (stopper0.getD ".")) <+:
      (resolvedSegs (pathResolve baseDir destFile)).dropLast) :
    (existsSync fs (pathResolve baseDir destFile) = false →
      removeFileAndParents fs baseDir destFile stopper0 = (none, fs)) ∧
    (∀ j, ¬ resolvedSegs (pathResolve baseDir destFile) <+: j →
      ¬ (resolvedSegs (pathResolve baseDir (stopper0.getD ".")) <+: j ∧
         j <+: (resolvedSegs (pathResolve baseDir destFile)).dropLast ∧
         j ≠ resolvedSegs (pathResolve baseDir (stopper0.getD "."))) →
      fsGet (removeFileAndParents fs baseDir destFile stopper0).2 j = fsGet fs j) ∧
    (fsGet (removeFileAndParents fs baseDir destFile stopper0).2
        (resolvedSegs (pathResolve baseDir (stopper0.getD "."))) =
      fsGet fs (resolvedSegs (pathResolve baseDir (stopper0.getD ".")))) ∧
    (existsSync fs (pathResolve baseDir destFile) = true →
      ∀ j, resolvedSegs (pathResolve baseDir destFile) <+: j →
        fsGet (removeFileAndParents fs baseDir destFile stopper0).2 j = none) ∧
    (∀ j1 j2, j1 <+: j2 →
      (fsGet (removeFileAndParents fs baseDir destFile stopper0).2 j2).isSome = true →
      (fsGet (removeFileAndParents fs baseDir destFile stopper0).2 j1).isSome = true) := by
  set F := resolvedSegs (pathResolve baseDir destFile) with hFdef
  set S := resolvedSegs (pathResolve baseDir (stopper0.getD ".")) with hSdef
  have hshow : removeFileAndParents fs baseDir destFile stopper0 =
      (if existsSync fs (pathResolve baseDir destFile) = false then (none, fs)
       else pruneLoop (F.length + 1)
         (rmSyncRF fs (pathResolve baseDir destFile))
         (pathResolve baseDir (stopper0.getD "."))
         (pathDirname (pathResolve baseDir destFile))) := rfl
  have hFv : validKey F := validKey_resolvedSegs _
  have hSv : validKey S := validKey_resolvedSegs _
  by_cases hex : existsSync fs (pathResolve baseDir destFile) = false
  · have hout : removeFileAndParents fs baseDir destFile stopper0 = (none, fs) := by
      rw [hshow, if_pos hex]
    refine ⟨fun _ => hout, fun j _ _ => by rw [hout], by rw [hout], ?_, ?_⟩
    · intro hex2
      rw [hex2] at hex
      exact Bool.noConfusion hex
    · intro j1 j2 hp h2
      rw [hout] at h2 ⊢
      obtain ⟨t, rfl⟩ := hp
      exact fsGet_prefix_exists fs hwf t j1 h2
  · have hexT : existsSync fs (pathResolve baseDir destFile) = true := by
      cases h : existsSync fs (pathResolve baseDir destFile) with
      | false => exact absurd h hex
      | true => rfl
    have hdirname : pathDirname (pathResolve baseDir destFile) = absOfSegs F.dropLast := by
      conv_lhs => rw [← pathResolve_canonical baseDir destFile]
      exact pathDirname_absOfSegs F hFv
    have hstopAt : pathResolve baseDir (stopper0.getD ".") = absOfSegs S :=
      (pathResolve_canonical _ _).symm
    have hwf1 : wfFS (fsEraseTree fs F) := wfFS_eraseTree fs F hwf
    have hns1 : noSymlinks (fsEraseTree fs F) := noSymlinks_eraseTree fs F hns
    have hvdl : validKey F.dropLast := fun s hs => hFv s ((List.dropLast_prefix F).subset hs)
    obtain ⟨pwf, pns, pframe, pmono⟩ :=
      pruneLoop_spec (F.length + 1) (fsEraseTree fs F) S F.dropLast hwf1 hns1 hSv hvdl hstop
    have hout : removeFileAndParents fs baseDir destFile stopper0 =
        pruneLoop (F.length + 1) (fsEraseTree fs F) (absOfSegs S) (absOfSegs F.dropLast) := by
      rw [hshow, if_neg hex,
          show rmSyncRF fs (pathResolve baseDir destFile) = fsEraseTree fs F from rfl,
          hdirname, hstopAt]
    have frameAll : ∀ j, ¬ F <+: j →
        ¬ (S <+: j ∧ j <+: F.dropLast ∧ j ≠ S) →
        fsGet (removeFileAndParents fs baseDir destFile stopper0).2 j = fsGet fs j := by
      intro j hjF hjR
      rw [hout, pframe j hjR]
      by_cases hjnil : j = []
      · rw [hjnil]
        rfl
      · rw [fsGet_eraseTree fs F j hjnil,
            if_neg (fun hq => hjF (List.isPrefixOf_iff_prefix.mp hq))]
    refine ⟨?_, frameAll, ?_, ?_, ?_⟩
    · intro h
      rw [hexT] at h
      exact Bool.noConfusion h
    · refine frameAll S ?_ ?_
      · intro hq
        have l1 := hq.length_le
        have l2 := hstop.length_le
        rw [List.length_dropLast] at l2
        have l3 : 1 ≤ F.length := List.length_pos.mpr hnil
        omega
      · intro ⟨_, _, hc⟩
        exact hc rfl
    · intro _ j hFj
      have hjnil : j ≠ [] := by
        intro hq
        rw [hq] at hFj
        exact hnil (List.prefix_nil.mp hFj)
      rcases pmono j with h | h
      · rw [hout]
        exact h
      · rw [hout, h, fsGet_eraseTree fs F j hjnil,
            if_pos (List.isPrefixOf_iff_prefix.mpr hFj)]
    · intro j1 j2 hp h2
      obtain ⟨t, rfl⟩ := hp
      rw [hout] at h2 ⊢
      exact fsGet_prefix_exists _ pwf t j1 h2

end PluginHandlers

namespace PluginHandlers

/-- Witness for C6, on the spec's own example: removing
`a/b/c/file.txt` with stopper `a` deletes the file, then the emptied
`c` and `b`, and stops before touching `a` (which keeps its other
child). -/
theorem removeFileAndParents_spec_witness :
    wfFS fsPrune ∧
    fsGet (removeFileAndParents fsPrune "/www" "a/b/c/file.txt" (some "a")).2
      ["www", "a", "b", "c", "file.txt"] = none ∧
    fsGet (removeFileAndParents fsPrune "/www" "a/b/c/file.txt" (some "a")).2
      ["www", "a", "keep.txt"] = some (FSNode.file "k") ∧
    fsGet (removeFileAndParents fsPrune "/www" "a/b/c/file.txt" (some "a")).2
      ["www", "a"] = some FSNode.dir ∧
    (removeFileAndParents fsPrune "/www" "a/b/c/file.txt" (some "a")).2 =
      ⟨[(["www"], FSNode.dir), (["www", "a"], FSNode.dir),
        (["www", "a", "keep.txt"], FSNode.file "k")]⟩ := by
  have h := removeFileAndParents_spec fsPrune "/www" "a/b/c/file.txt" (some "a")
    (by decide) (by decide) (by decide)
    (List.isPrefixOf_iff_prefix.mp (by decide))
  refine ⟨by decide, ?_, ?_, ?_, by decide⟩
  · exact h.2.2.2.1 (by decide) ["www", "a", "b", "c", "file.txt"]
      (List.isPrefixOf_iff_prefix.mp (by decide))
  · refine (h.2.1 ["www", "a", "keep.txt"] ?_ ?_).trans (by decide)
    · intro hq
      exact absurd (List.isPrefixOf_iff_prefix.mpr hq) (by decide)
    · intro hq
      exact absurd (List.isPrefixOf_iff_prefix.mpr hq.2.1) (by decide)
  · have hS : resolvedSegs (pathResolve "/www" ((some "a").getD ".")) = ["www", "a"] := by
      decide
    have h3 := h.2.2.1
    rw [hS] at h3
    exact h3.trans (by decide)

end PluginHandlers
